import Mathlib

/-!
Verification development for the minerva-requests library
(src/lib/requests.js): a request-batch construction layer for the
Minerva graph-editing service.  The JavaScript source is shallowly
embedded: JS strings become lists of characters, the per-request
`_arguments` object becomes an insertion-ordered association list of
JSON-like values, the mutable objects (`request_variable`, `request`,
`request_set`) become structures with explicit state passing, and JS
exceptions become `Option`/`Except` error results that also carry the
mutations performed before the throw.  The generated uuid of a
`request_variable` is passed in as an explicit parameter (the source
calls a global generator).
-/

namespace Minerva

/-- JS strings are modelled as lists of Unicode characters. -/
abbrev Str := List Char

/-- Embed a Lean string literal as a modelled JS string. -/
def str (s : String) : Str := s.data

/-- JS truthiness of a string: the empty string is falsy, every other
string is truthy. -/
def strTruthy (s : Str) : Bool := !s.isEmpty

/-- JS truthiness of an optional string argument: `undefined`/`null`
(modelled by `none`) are falsy. -/
def optStrTruthy : Option Str → Bool
  | none => false
  | some s => strTruthy s

mutual
/-- JSON-like values held in a request's `_arguments` map and produced by
`objectify`: strings, arrays, and objects with insertion-ordered keys
(JS object keys keep insertion order, which `JSON.stringify` follows). -/
inductive Val : Type where
  | vstr (s : Str)
  | varr (l : ValList)
  | vobj (l : ObjList)

/-- A JS array of values. -/
inductive ValList : Type where
  | nil
  | cons (v : Val) (t : ValList)

/-- A JS object: insertion-ordered key/value fields. -/
inductive ObjList : Type where
  | nil
  | cons (k : Str) (v : Val) (t : ObjList)
end

/-- JS truthiness of a value: the empty string is falsy; arrays and
objects (even empty ones) are truthy. -/
def valTruthy : Val → Bool
  | .vstr s => strTruthy s
  | .varr _ => true
  | .vobj _ => true

/-- JS truthiness of a possibly-absent value. -/
def optValTruthy : Option Val → Bool
  | none => false
  | some v => valTruthy v

/-- Property lookup on a JS object (`obj[key]`, `undefined` when absent). -/
def ObjList.lookup : ObjList → Str → Option Val
  | .nil, _ => none
  | .cons k v t, key => if k = key then some v else t.lookup key

/-- Property assignment on a JS object (`obj[key] = val`): overwriting an
existing key keeps its insertion position, a new key is appended. -/
def ObjList.set : ObjList → Str → Val → ObjList
  | .nil, key, val => .cons key val .nil
  | .cons k v t, key, val =>
      if k = key then .cons k val t else .cons k v (t.set key val)

/-- Number of elements of a JS array. -/
def ValList.length : ValList → Nat
  | .nil => 0
  | .cons _ t => t.length + 1

/-- Concatenation of JS arrays. -/
def ValList.append : ValList → ValList → ValList
  | .nil, l => l
  | .cons v t, l => .cons v (t.append l)

/-- Build a JS array from a Lean list. -/
def ValList.ofList : List Val → ValList
  | [] => .nil
  | v :: t => .cons v (ValList.ofList t)

/-!
## request_variable

`request_variable` (requests.js lines 30-64) keeps track of the implicit
`assign-to-variable` value of a request.  Its private state is the
current value `_var` (initialized to a generated uuid, passed in here as
the `uuid` parameter) and the flag `_use_var_p` recording whether a
caller ever supplied a value.
-/

structure RequestVariable : Type where
  var : Str
  usevar : Bool
deriving Repr

/-- The internal `_value` closure: a truthy argument overwrites `_var`
and sets `_use_var_p`; a falsy argument (absent or the empty string)
changes nothing.  Returns the updated variable and the value `_var`
returned by the closure. -/
def rvValue (rv : RequestVariable) (v : Option Str) : RequestVariable × Str :=
  match v with
  | some s => if strTruthy s then ({ var := s, usevar := true }, s) else (rv, rv.var)
  | none => (rv, rv.var)

/-- The `request_variable` constructor: `_var` starts as the generated
uuid, `_use_var_p` as false, then `_value(varvalue)` runs on the
constructor argument. -/
def mkRequestVariable (uuid : Str) (varvalue : Option Str) : RequestVariable :=
  (rvValue { var := uuid, usevar := false } varvalue).1

/-- `set_p()`: whether the caller ever supplied a value. -/
def rvSetP (rv : RequestVariable) : Bool := rv.usevar

/-!
## request

`request` (requests.js lines 78-367) describes one operation against one
entity.  `_model_id` is assigned `null` in the constructor and never
written afterwards (the `model` accessor works on the `_arguments` map),
so it is carried as an inert field.
-/

structure Request : Type where
  entity : Str
  operation : Str
  model_id : Option Str
  individual_id : RequestVariable
  args : ObjList

/-- The `request` constructor; `uuid` is the generated value of the
implicitly created `request_variable`. -/
def mkRequest (entity operation : Str) (uuid : Str) : Request :=
  { entity := entity, operation := operation, model_id := none,
    individual_id := mkRequestVariable uuid none, args := .nil }

/-- Internal `_add`: store a value under a key. -/
def reqAdd (r : Request) (key : Str) (v : Val) : Request :=
  { r with args := r.args.set key v }

/-- Internal `_get`: read a value, `null` (here `none`) when absent. -/
def reqGet (r : Request) (key : Str) : Option Val :=
  r.args.lookup key

/-- Internal `_get_set`: store the value when it is truthy, then read the
key back. -/
def reqGetSet (r : Request) (key : Str) (v : Option Val) : Request × Option Val :=
  let r2 := match v with
    | some w => if valTruthy w then reqAdd r key w else r
    | none => r
  (r2, reqGet r2 key)

/-- Public `special(name, val)` accessor. -/
def reqSpecial (r : Request) (name : Str) (v : Option Str) : Request × Option Val :=
  reqGetSet r name (v.map .vstr)

/-- Public `subject` accessor. -/
def reqSubject (r : Request) (v : Option Str) : Request × Option Val :=
  reqGetSet r (str "subject") (v.map .vstr)

/-- Public `object` accessor. -/
def reqObject (r : Request) (v : Option Str) : Request × Option Val :=
  reqGetSet r (str "object") (v.map .vstr)

/-- Public `predicate` accessor. -/
def reqPredicate (r : Request) (v : Option Str) : Request × Option Val :=
  reqGetSet r (str "predicate") (v.map .vstr)

/-- Public `model` accessor (key `model-id`). -/
def reqModel (r : Request) (v : Option Str) : Request × Option Val :=
  reqGetSet r (str "model-id") (v.map .vstr)

/-- Public `individual(ind_id)` accessor: a truthy argument is written
into the request variable and copied into the argument map under
`individual`; the current variable value is returned either way. -/
def reqIndividual (r : Request) (indId : Option Str) : Request × Str :=
  match indId with
  | some s =>
      if strTruthy s then
        let rv := (rvValue r.individual_id (some s)).1
        let r2 := reqAdd { r with individual_id := rv } (str "individual") (.vstr s)
        (r2, rv.var)
      else (r, r.individual_id.var)
  | none => (r, r.individual_id.var)

/-- Public `fact(sub, obj, pred)`: set subject, object and predicate. -/
def reqFact (r : Request) (sub obj pred : Option Str) : Request :=
  (reqPredicate (reqObject (reqSubject r sub).1 obj).1 pred).1

/-- Errors thrown by the library, one constructor per `throw new Error`
message in requests.js. -/
inductive Err : Type where
  | unknownArgument
  | factMalformed
  | unknownTypeOperation
  | unknownAnnOperation
  | unknownAnnTarget
  | noEvidenceTarget
deriving DecidableEq, Repr

/-- The argument accepted by `add_annotation`: a single JS string, a JS
array of strings, or a falsy value (`null`/`undefined`).  Other value
shapes only ever reach the `unknown argument` throw and are not
modelled. -/
inductive AnnArg : Type where
  | astr (s : Str)
  | alist (l : List Str)
  | anone

/-- JS truthiness of an `add_annotation`-style argument (arrays are
truthy even when empty). -/
def annArgTruthy : AnnArg → Bool
  | .astr s => strTruthy s
  | .alist _ => true
  | .anone => false

/-- One `{key, value}` annotation pair per value. -/
def annPairs (key : Str) (vals : List Str) : List Val :=
  vals.map (fun v =>
    Val.vobj (.cons (str "key") (.vstr key) (.cons (str "value") (.vstr v) .nil)))

/-- Internal `_ensure_list` followed by pushes: append items to the list
stored under `key`, creating it when absent.  A present non-array value
cannot arise through the public API. -/
def argsPushList (args : ObjList) (key : Str) (items : List Val) : ObjList :=
  match args.lookup key with
  | some (.varr l) => args.set key (.varr (l.append (ValList.ofList items)))
  | _ => args.set key (.varr (ValList.ofList items))

/-- Public `add_annotation(key, vals)` (requests.js lines 276-291): a
single string becomes a one-element list; anything that is not a string
or an array throws `unknown argument`; each value is pushed onto the
`values` list as a `{key, value}` pair; returns the new total count. -/
def reqAddAnnPairs (r : Request) (key : Str) (vals : AnnArg) : Except Err (Request × Nat) :=
  match vals with
  | .anone => .error .unknownArgument
  | .astr s =>
      let args2 := argsPushList r.args (str "values") (annPairs key [s])
      .ok ({ r with args := args2 },
           match args2.lookup (str "values") with
           | some (.varr l) => l.length
           | _ => 0)
  | .alist l =>
      let args2 := argsPushList r.args (str "values") (annPairs key l)
      .ok ({ r with args := args2 },
           match args2.lookup (str "values") with
           | some (.varr l2) => l2.length
           | _ => 0)

/-- Public `add_class_expression(class_expr)`: the external
class-expression adapter's normalized `structure()` output is passed in
as the opaque value `exprStruct` and pushed onto the `expressions`
list; returns the new count. -/
def reqAddClassExpression (r : Request) (exprStruct : Val) : Request × Nat :=
  let args2 := argsPushList r.args (str "expressions") [exprStruct]
  ({ r with args := args2 },
   match args2.lookup (str "expressions") with
   | some (.varr l) => l.length
   | _ => 0)

/-- The key of the implicit-binding instruction. -/
def keyAssign : Str := str "assign-to-variable"

/-- The arguments object as mutated by `objectify`: for an `individual`
request whose variable was never explicitly set, the variable's value is
stored under `assign-to-variable`. -/
def objectifyArgs (r : Request) : ObjList :=
  if r.entity = str "individual" && !r.individual_id.usevar then
    r.args.set keyAssign (.vstr r.individual_id.var)
  else r.args

/-- Public `objectify()` (requests.js lines 170-187): produce the
`{entity, operation, arguments}` object.  The JS code mutates the shared
`_arguments` object when it injects `assign-to-variable`, so the updated
request is returned alongside the serialization. -/
def objectify (r : Request) : Request × Val :=
  let args2 := objectifyArgs r
  ({ r with args := args2 },
   .vobj (.cons (str "entity") (.vstr r.entity)
         (.cons (str "operation") (.vstr r.operation)
         (.cons (str "arguments") (.vobj args2) .nil))))

/-!
## request_set

`request_set` (requests.js lines 390-1111): an ordered, append-only
sequence of requests plus the auth token, the default model id and the
batch intention.  The inert `_last_entity_id` field (assigned `null`,
never read) is not carried.  Each method that constructs `new request`
objects takes the generated uuid(s) of their request variables as
explicit parameters.
-/

structure RequestSet : Type where
  user_token : Option Str
  model_id : Option Str
  requests : List Request
  intention : Str

/-- The `request_set` constructor: `user_token || null`,
`model_id || null`, empty queue, intention `query`. -/
def mkRequestSet (user_token model_id : Option Str) : RequestSet :=
  { user_token := if optStrTruthy user_token then user_token else none,
    model_id := if optStrTruthy model_id then model_id else none,
    requests := [], intention := str "query" }

/-- `add(req, intention)` (requests.js lines 479-496): a falsy hint
elevates to `action`; hint `action` elevates; hint `query` (or any
other string) leaves the intention alone; the request is appended. -/
def rsAdd (rs : RequestSet) (req : Request) (intention : Option Str) : RequestSet :=
  let newIntent :=
    if !optStrTruthy intention then str "action"
    else if intention = some (str "action") then str "action"
    else rs.intention
  { rs with intention := newIntent, requests := rs.requests ++ [req] }

/-- Backward scan of `last_individual_id` (requests.js lines 416-434)
over the already-reversed request list: count only `individual`
requests, decrement the skip count on each match, return the match's
`individual()` value once the count is exhausted. -/
def lastIndividualIdGo : List Request → Nat → Option Str
  | [], _ => none
  | r :: t, skip =>
      if r.entity = str "individual" then
        if skip > 0 then lastIndividualIdGo t (skip - 1)
        else some r.individual_id.var
      else lastIndividualIdGo t skip

/-- `last_individual_id(number_to_skip)`; an absent skip argument
behaves as 0 (`undefined > 0` is false and never decrements). -/
def lastIndividualId (rs : RequestSet) (skip : Nat) : Option Str :=
  lastIndividualIdGo rs.requests.reverse skip

/-- Backward scan of `last_fact_triple` (requests.js lines 447-468):
count only `edge` requests; the match yields the list
`[subject(), object(), predicate()]` of possibly-null getter results. -/
def lastFactTripleGo : List Request → Nat → Option (List (Option Val))
  | [], _ => none
  | r :: t, skip =>
      if r.entity = str "edge" then
        if skip > 0 then lastFactTripleGo t (skip - 1)
        else some [reqGet r (str "subject"), reqGet r (str "object"),
                   reqGet r (str "predicate")]
      else lastFactTripleGo t skip

/-- `last_fact_triple(number_to_skip)`. -/
def lastFactTriple (rs : RequestSet) (skip : Nat) : Option (List (Option Val)) :=
  lastFactTripleGo rs.requests.reverse skip

/-- A fact-triple argument as passed by callers: `none` is
`null`/`undefined`; a list holds the (possibly absent) fields, indexing
past the end of a short list yielding `undefined`. -/
abbrev TripleArg := Option (List (Option Str))

/-- `triple[i]`. -/
def tripleField (t : List (Option Str)) (i : Nat) : Option Str :=
  t.getD i none

/-- The guard of `_ensure_fact` (requests.js lines 608-614):
`triple && triple[0] && triple[1] && triple[2]`.  An empty-string field
is JS-falsy and fails the guard exactly like an absent field. -/
def ensureFactOk : TripleArg → Bool
  | none => false
  | some t => optStrTruthy (tripleField t 0) && optStrTruthy (tripleField t 1)
      && optStrTruthy (tripleField t 2)

/-- Optionally apply the `model` accessor (`if( model_id ){ req.model(model_id); }`). -/
def reqModelOpt (r : Request) (modelId : Option Str) : Request :=
  if optStrTruthy modelId then (reqModel r modelId).1 else r

/-- `add_individual(class_expr, model_id)` (requests.js lines 508-525):
for a truthy class expression, build an `individual/add` request
carrying it (with the optional model id), append it with hint `action`
and return the request's `individual()` value; otherwise return null.
A truthy class-expression input together with its adapter-normalized
structure is modelled by `some expr`, a falsy input by `none`. -/
def rsAddIndividual (rs : RequestSet) (uuid : Str) (classExpr : Option Val)
    (modelId : Option Str) : RequestSet × Option Str :=
  match classExpr with
  | some expr =>
      let r1 := reqModelOpt (mkRequest (str "individual") (str "add") uuid) modelId
      let r2 := (reqAddClassExpression r1 expr).1
      (rsAdd rs r2 (some (str "action")), some (reqIndividual r2 none).2)
  | none => (rs, none)

/-- `remove_individual(individual_id, model_id)` (requests.js lines 536-549). -/
def rsRemoveIndividual (rs : RequestSet) (uuid : Str) (individualId : Option Str)
    (modelId : Option Str) : RequestSet :=
  if optStrTruthy individualId then
    let r1 := reqModelOpt (mkRequest (str "individual") (str "remove") uuid) modelId
    let r2 := (reqIndividual r1 individualId).1
    rsAdd rs r2 (some (str "action"))
  else rs

/-- Internal `_op_type_to_individual(op, class_expr, individual_id,
model_id)` (requests.js lines 553-574): when all three of op, class
expression and individual id are truthy, an op other than `add`/`remove`
throws; otherwise an `individual/(op)-type` request is wired
(individual, optional model, class expression) and appended with hint
`action`.  When any guard input is falsy the call is a silent no-op. -/
def rsOpTypeToIndividual (rs : RequestSet) (uuid : Str) (op : Str)
    (classExpr : Option Val) (individualId : Option Str) (modelId : Option Str) :
    RequestSet × Option Err :=
  match classExpr with
  | some expr =>
      if strTruthy op && optStrTruthy individualId then
        if op ≠ str "add" && op ≠ str "remove" then (rs, some .unknownTypeOperation)
        else
          let r1 := (reqIndividual (mkRequest (str "individual") (op ++ str "-type") uuid)
                      individualId).1
          let r2 := reqModelOpt r1 modelId
          let r3 := (reqAddClassExpression r2 expr).1
          (rsAdd rs r3 (some (str "action")), none)
      else (rs, none)
  | none => (rs, none)

/-- `add_type_to_individual` (requests.js lines 586-590). -/
def rsAddTypeToIndividual (rs : RequestSet) (uuid : Str) (classExpr : Option Val)
    (individualId : Option Str) (modelId : Option Str) : RequestSet × Option Err :=
  rsOpTypeToIndividual rs uuid (str "add") classExpr individualId modelId

/-- `remove_type_from_individual` (requests.js lines 600-604). -/
def rsRemoveTypeFromIndividual (rs : RequestSet) (uuid : Str) (classExpr : Option Val)
    (individualId : Option Str) (modelId : Option Str) : RequestSet × Option Err :=
  rsOpTypeToIndividual rs uuid (str "remove") classExpr individualId modelId

/-- `add_fact(triple, model_id)` (requests.js lines 626-637): throws on a
malformed triple, otherwise appends an `edge/add` request carrying the
triple.  (The JS method returns the triple, not the set.) -/
def rsAddFact (rs : RequestSet) (uuid : Str) (triple : TripleArg)
    (modelId : Option Str) : RequestSet × Option Err :=
  if ensureFactOk triple then
    let t := triple.getD []
    let r1 := reqModelOpt (mkRequest (str "edge") (str "add") uuid) modelId
    let r2 := reqFact r1 (tripleField t 0) (tripleField t 1) (tripleField t 2)
    (rsAdd rs r2 (some (str "action")), none)
  else (rs, some .factMalformed)

/-- `remove_fact(triple, model_id)` (requests.js lines 649-660). -/
def rsRemoveFact (rs : RequestSet) (uuid : Str) (triple : TripleArg)
    (modelId : Option Str) : RequestSet × Option Err :=
  if ensureFactOk triple then
    let t := triple.getD []
    let r1 := reqModelOpt (mkRequest (str "edge") (str "remove") uuid) modelId
    let r2 := reqFact r1 (tripleField t 0) (tripleField t 1) (tripleField t 2)
    (rsAdd rs r2 (some (str "action")), none)
  else (rs, some .factMalformed)

/-- The `target_identifier` argument of `add_evidence`: a JS string
(individual id) or a JS array (fact triple). -/
inductive TargetArg : Type where
  | tind (s : Str)
  | tfact (t : List (Option Str))

/-- `add_evidence(evidence_id, source_ids, target_identifier, model_id)`
(requests.js lines 672-725).  On truthy evidence id and source ids it
(1) appends a floating `individual/add` request typed with the evidence
class, (2) appends an `individual/add-annotation` request attaching one
`source` pair per source id to the floating individual, then (3) for a
falsy target throws `no target identified for evidence add`, for a
string target appends an `individual/add-annotation` request with an
`evidence` pair naming the floating individual, and for an array target
checks the triple and appends an `edge/add-annotation` request likewise.
Requests appended before a throw stay appended.  A truthy evidence-id
input together with its adapter-normalized structure is modelled by
`some eExpr`. -/
def rsAddEvidence (rs : RequestSet) (u1 u2 u3 : Str) (evidenceExpr : Option Val)
    (sourceIds : AnnArg) (target : Option TargetArg) (modelId : Option Str) :
    RequestSet × Option Err :=
  match evidenceExpr with
  | none => (rs, none)
  | some eExpr =>
      if annArgTruthy sourceIds then
        let ev1 := reqModelOpt (mkRequest (str "individual") (str "add") u1) modelId
        let ev2 := (reqAddClassExpression ev1 eExpr).1
        let rs1 := rsAdd rs ev2 (some (str "action"))
        let an1 := reqModelOpt (mkRequest (str "individual") (str "add-annotation") u2) modelId
        let an2 := (reqIndividual an1 (some (reqIndividual ev2 none).2)).1
        match reqAddAnnPairs an2 (str "source") sourceIds with
        | .error e => (rs1, some e)
        | .ok (an3, _) =>
            let rs2 := rsAdd rs1 an3 (some (str "action"))
            match target with
            | none => (rs2, some .noEvidenceTarget)
            | some (.tind tid) =>
                if strTruthy tid then
                  let ia1 := reqModelOpt
                    (mkRequest (str "individual") (str "add-annotation") u3) modelId
                  let ia2 := (reqIndividual ia1 (some tid)).1
                  match reqAddAnnPairs ia2 (str "evidence")
                      (.astr (reqIndividual ev2 none).2) with
                  | .error e => (rs2, some e)
                  | .ok (ia3, _) => (rsAdd rs2 ia3 (some (str "action")), none)
                else (rs2, some .noEvidenceTarget)
            | some (.tfact t) =>
                if ensureFactOk (some t) then
                  let ea1 := reqModelOpt
                    (mkRequest (str "edge") (str "add-annotation") u3) modelId
                  let ea2 := reqFact ea1 (tripleField t 0) (tripleField t 1)
                    (tripleField t 2)
                  match reqAddAnnPairs ea2 (str "evidence")
                      (.astr (reqIndividual ev2 none).2) with
                  | .error e => (rs2, some e)
                  | .ok (ea3, _) => (rsAdd rs2 ea3 (some (str "action")), none)
                else (rs2, some .factMalformed)
      else (rs, none)

/-- `remove_evidence(evidence_individual_id, model_id)` (requests.js
lines 738-747): reduces to removing the evidence individual. -/
def rsRemoveEvidence (rs : RequestSet) (uuid : Str) (evidenceIndividualId : Option Str)
    (modelId : Option Str) : RequestSet :=
  if optStrTruthy evidenceIndividualId then
    rsRemoveIndividual rs uuid evidenceIndividualId modelId
  else rs

/-- `add_evidence_to_last_individual` (requests.js lines 761-770):
backward-lookup with skip 0, then `add_evidence` when a truthy id was
found; otherwise a silent no-op. -/
def rsAddEvidenceToLastIndividual (rs : RequestSet) (u1 u2 u3 : Str)
    (evidenceExpr : Option Val) (sourceIds : AnnArg) (modelId : Option Str) :
    RequestSet × Option Err :=
  match lastIndividualId rs 0 with
  | some tid =>
      if strTruthy tid then
        rsAddEvidence rs u1 u2 u3 evidenceExpr sourceIds (some (.tind tid)) modelId
      else (rs, none)
  | none => (rs, none)

/-- The subject/object/predicate getter results of `last_fact_triple`
are strings whenever they are present (the accessors only ever store
strings); recover the string for re-use as a triple field. -/
def valToStrField : Option Val → Option Str
  | some (.vstr s) => some s
  | _ => none

/-- `add_evidence_to_last_fact` (requests.js lines 783-792). -/
def rsAddEvidenceToLastFact (rs : RequestSet) (u1 u2 u3 : Str)
    (evidenceExpr : Option Val) (sourceIds : AnnArg) (modelId : Option Str) :
    RequestSet × Option Err :=
  match lastFactTriple rs 0 with
  | some t =>
      rsAddEvidence rs u1 u2 u3 evidenceExpr sourceIds
        (some (.tfact (t.map valToStrField))) modelId
  | none => (rs, none)

/-- The target of an annotation operation: the model (no identifier),
an individual (by id) or an edge (by triple). -/
inductive AnnTarget : Type where
  | tmodel
  | tindividual (id : Option Str)
  | tedge (t : TripleArg)

/-- Internal `_op_annotation_to_target(op, target, target_identifier,
key, value, model_id)` (requests.js lines 804-835): an op other than
`add`/`remove` throws; the target is wired (nothing for the model, the
individual id, or the checked fact triple); then, only when both key and
value are truthy, the annotation pair is added and the request appended
with hint `action`.  The `unknown annotation target` throw is
unreachable for the three public target kinds. -/
def rsOpAnnToTarget (rs : RequestSet) (uuid : Str) (op : Str) (target : AnnTarget)
    (key value : Option Str) (modelId : Option Str) : RequestSet × Option Err :=
  if op = str "add" ∨ op = str "remove" then
    let tstr := match target with
      | .tmodel => str "model"
      | .tindividual _ => str "individual"
      | .tedge _ => str "edge"
    let r1 := reqModelOpt (mkRequest tstr (op ++ str "-annotation") uuid) modelId
    let wired : Except Err Request := match target with
      | .tmodel => .ok r1
      | .tindividual id => .ok (reqIndividual r1 id).1
      | .tedge t =>
          if ensureFactOk t then
            .ok (reqFact r1 (tripleField (t.getD []) 0) (tripleField (t.getD []) 1)
                  (tripleField (t.getD []) 2))
          else .error .factMalformed
    match wired with
    | .error e => (rs, some e)
    | .ok r2 =>
        if optStrTruthy key && optStrTruthy value then
          match reqAddAnnPairs r2 (key.getD []) (.astr (value.getD [])) with
          | .error e => (rs, some e)
          | .ok (r3, _) => (rsAdd rs r3 (some (str "action")), none)
        else (rs, none)
  else (rs, some .unknownAnnOperation)

/-- `add_annotation_to_model` (requests.js lines 845-849). -/
def rsAddAnnToModel (rs : RequestSet) (uuid : Str) (key value : Option Str)
    (modelId : Option Str) : RequestSet × Option Err :=
  rsOpAnnToTarget rs uuid (str "add") .tmodel key value modelId

/-- `remove_annotation_from_model` (requests.js lines 859-863). -/
def rsRemoveAnnFromModel (rs : RequestSet) (uuid : Str) (key value : Option Str)
    (modelId : Option Str) : RequestSet × Option Err :=
  rsOpAnnToTarget rs uuid (str "remove") .tmodel key value modelId

/-- `add_annotation_to_individual` (requests.js lines 874-879). -/
def rsAddAnnToIndividual (rs : RequestSet) (uuid : Str) (key value : Option Str)
    (individualId : Option Str) (modelId : Option Str) : RequestSet × Option Err :=
  rsOpAnnToTarget rs uuid (str "add") (.tindividual individualId) key value modelId

/-- `remove_annotation_from_individual` (requests.js lines 890-895). -/
def rsRemoveAnnFromIndividual (rs : RequestSet) (uuid : Str) (key value : Option Str)
    (individualId : Option Str) (modelId : Option Str) : RequestSet × Option Err :=
  rsOpAnnToTarget rs uuid (str "remove") (.tindividual individualId) key value modelId

/-- `add_annotation_to_fact` (requests.js lines 906-911): checks the
triple itself before delegating. -/
def rsAddAnnToFact (rs : RequestSet) (uuid : Str) (key value : Option Str)
    (triple : TripleArg) (modelId : Option Str) : RequestSet × Option Err :=
  if ensureFactOk triple then
    rsOpAnnToTarget rs uuid (str "add") (.tedge triple) key value modelId
  else (rs, some .factMalformed)

/-- `remove_annotation_from_fact` (requests.js lines 922-927). -/
def rsRemoveAnnFromFact (rs : RequestSet) (uuid : Str) (key value : Option Str)
    (triple : TripleArg) (modelId : Option Str) : RequestSet × Option Err :=
  if ensureFactOk triple then
    rsOpAnnToTarget rs uuid (str "remove") (.tedge triple) key value modelId
  else (rs, some .factMalformed)

/-- `undo_last_model_batch(model_id)` (requests.js lines 935-943). -/
def rsUndoLastModelBatch (rs : RequestSet) (uuid : Str) (modelId : Option Str) : RequestSet :=
  rsAdd rs (reqModelOpt (mkRequest (str "model") (str "undo") uuid) modelId)
    (some (str "action"))

/-- `redo_last_model_batch(model_id)` (requests.js lines 951-959). -/
def rsRedoLastModelBatch (rs : RequestSet) (uuid : Str) (modelId : Option Str) : RequestSet :=
  rsAdd rs (reqModelOpt (mkRequest (str "model") (str "redo") uuid) modelId)
    (some (str "action"))

/-- `get_meta()` (requests.js lines 966-974). -/
def rsGetMeta (rs : RequestSet) (uuid : Str) : RequestSet :=
  rsAdd rs (mkRequest (str "meta") (str "get") uuid) (some (str "query"))

/-- `get_model(model_id)` (requests.js lines 984-993). -/
def rsGetModel (rs : RequestSet) (uuid : Str) (modelId : Option Str) : RequestSet :=
  rsAdd rs (reqModelOpt (mkRequest (str "model") (str "get") uuid) modelId)
    (some (str "query"))

/-- `get_undo_redo(model_id)` (requests.js lines 1003-1012). -/
def rsGetUndoRedo (rs : RequestSet) (uuid : Str) (modelId : Option Str) : RequestSet :=
  rsAdd rs (reqModelOpt (mkRequest (str "model") (str "get-undo-redo") uuid) modelId)
    (some (str "query"))

/-- `add_model(argument_hash)` (requests.js lines 1024-1046): the
recognized hash entries `class-id` and `taxon-id` are read out when
truthy and stored as special arguments; a `model/add` request is
appended with hint `action`. -/
def rsAddModel (rs : RequestSet) (uuid : Str) (clsId taxId : Option Str) : RequestSet :=
  let r0 := mkRequest (str "model") (str "add") uuid
  let r1 := if optStrTruthy clsId then (reqSpecial r0 (str "class-id") clsId).1 else r0
  let r2 := if optStrTruthy taxId then (reqSpecial r1 (str "taxon-id") taxId).1 else r1
  rsAdd rs r2 (some (str "action"))

/-- `store_model(model_id)` (requests.js lines 1055-1065): appended with
hint `query`. -/
def rsStoreModel (rs : RequestSet) (uuid : Str) (modelId : Option Str) : RequestSet :=
  rsAdd rs (reqModelOpt (mkRequest (str "model") (str "store") uuid) modelId)
    (some (str "query"))

/-!
## Serialization: structure() and callable()
-/

/-- The back-fill step of `structure()`:
`if( ! req.model() && anchor._model_id ){ req.model(anchor._model_id); }`. -/
def backfillReq (m : Option Str) (r : Request) : Request :=
  if !optValTruthy (reqGet r (str "model-id")) && optStrTruthy m then
    (reqModel r m).1
  else r

/-- The per-request loop of `structure()`: back-fill the default model
id, objectify, and keep both the mutated requests and their
serializations (the JS loop mutates the stored request objects). -/
def structStep (m : Option Str) : List Request → List Request × List Val
  | [] => ([], [])
  | r :: t =>
      let p := objectify (backfillReq m r)
      let rest := structStep m t
      (p.1 :: rest.1, p.2 :: rest.2)

/-- The wire payload produced by `structure()`. -/
structure StructureOut : Type where
  token : Option Str
  intention : Str
  requests : ValList

/-- `structure()` (requests.js lines 1073-1093): `{token, intention,
requests}` with the requests serialized in list order; returns the
mutated set as well. -/
def structureRS (rs : RequestSet) : RequestSet × StructureOut :=
  let p := structStep rs.model_id rs.requests
  ({ rs with requests := p.1 },
   { token := rs.user_token, intention := rs.intention,
     requests := ValList.ofList p.2 })

/-!
## JSON.stringify

`callable()` runs the requests list through `JSON.stringify` and
`encodeURIComponent`.  Both built-ins are embedded here over `List Char`
(character codes are used instead of literals for the structural
characters).  `JSON.stringify` escapes the quote, the backslash, and
control characters (with the short forms for backspace, tab, newline,
form feed and carriage return, and lowercase `\u00xx` otherwise);
everything else is emitted verbatim.  Lean characters are Unicode
scalars, so the surrogate-escaping branch of the built-in has no inputs
in this model.
-/

/-- Uppercase hex digit (as emitted by `encodeURIComponent`). -/
def hexDigitUpper (n : Nat) : Char :=
  Char.ofNat (if n < 10 then 48 + n else 55 + n)

/-- Lowercase hex digit (as emitted by `JSON.stringify` in `\u00xx`). -/
def hexDigitLower (n : Nat) : Char :=
  Char.ofNat (if n < 10 then 48 + n else 87 + n)

/-- Read one hex digit, either case. -/
def fromHexDigit (c : Char) : Option Nat :=
  let n := c.toNat
  if 48 ≤ n && n ≤ 57 then some (n - 48)
  else if 65 ≤ n && n ≤ 70 then some (n - 55)
  else if 97 ≤ n && n ≤ 102 then some (n - 87)
  else none

/-- The `JSON.stringify` escape of one character inside a string. -/
def escChar (c : Char) : List Char :=
  let n := c.toNat
  if n = 34 then [Char.ofNat 92, Char.ofNat 34]
  else if n = 92 then [Char.ofNat 92, Char.ofNat 92]
  else if n = 8 then [Char.ofNat 92, Char.ofNat 98]
  else if n = 9 then [Char.ofNat 92, Char.ofNat 116]
  else if n = 10 then [Char.ofNat 92, Char.ofNat 110]
  else if n = 12 then [Char.ofNat 92, Char.ofNat 102]
  else if n = 13 then [Char.ofNat 92, Char.ofNat 114]
  else if n < 32 then
    [Char.ofNat 92, Char.ofNat 117, Char.ofNat 48, Char.ofNat 48,
     hexDigitLower (n / 16), hexDigitLower (n % 16)]
  else [c]

/-- The escaped body of a JSON string. -/
def escStr (s : Str) : List Char := s.flatMap escChar

/-- A quoted JSON string. -/
def quoteStr (s : Str) : List Char :=
  Char.ofNat 34 :: (escStr s ++ [Char.ofNat 34])

mutual
/-- `JSON.stringify` of a value. -/
def strVal : Val → List Char
  | .vstr s => quoteStr s
  | .varr l => Char.ofNat 91 :: (strItems l ++ [Char.ofNat 93])
  | .vobj l => Char.ofNat 123 :: (strFields l ++ [Char.ofNat 125])

/-- Comma-joined array elements. -/
def strItems : ValList → List Char
  | .nil => []
  | .cons v t => strVal v ++ strItemsTail t

/-- Subsequent array elements, each preceded by a comma. -/
def strItemsTail : ValList → List Char
  | .nil => []
  | .cons v t => Char.ofNat 44 :: (strVal v ++ strItemsTail t)

/-- Comma-joined object fields (`"key":value`). -/
def strFields : ObjList → List Char
  | .nil => []
  | .cons k v t => quoteStr k ++ (Char.ofNat 58 :: strVal v) ++ strFieldsTail t

/-- Subsequent object fields, each preceded by a comma. -/
def strFieldsTail : ObjList → List Char
  | .nil => []
  | .cons k v t =>
      Char.ofNat 44 :: (quoteStr k ++ (Char.ofNat 58 :: strVal v) ++ strFieldsTail t)
end

/-!
## JSON parsing

A recursive-descent parser for the value grammar `JSON.stringify`
produces (strings, arrays, objects; stringify emits no whitespace, no
numbers and no literals for this library's payloads).  On the image of
`strVal` the parser agrees with `JSON.parse`.  The value parsers carry
explicit fuel; a fuel larger than the constructor count of the value
suffices.
-/

/-- Valid Unicode scalar codes (what a Lean `Char` can hold). -/
def validCP (n : Nat) : Bool := n < 55296 || (57343 < n && n < 1114112)

/-- Decode one JSON string escape after the backslash: the decoded
character and the rest of the input.  `\uXXXX` is accepted only for
scalar values: surrogate pairs do not arise on the stringify image, and
Lean characters cannot hold lone surrogates. -/
def escStep : List Char → Option (Char × List Char)
  | [] => none
  | e :: cs2 =>
      let m := e.toNat
      if m = 34 then some (Char.ofNat 34, cs2)
      else if m = 92 then some (Char.ofNat 92, cs2)
      else if m = 47 then some (Char.ofNat 47, cs2)
      else if m = 98 then some (Char.ofNat 8, cs2)
      else if m = 116 then some (Char.ofNat 9, cs2)
      else if m = 110 then some (Char.ofNat 10, cs2)
      else if m = 102 then some (Char.ofNat 12, cs2)
      else if m = 114 then some (Char.ofNat 13, cs2)
      else if m = 117 then
        match cs2 with
        | h1 :: h2 :: h3 :: h4 :: cs3 =>
            match fromHexDigit h1, fromHexDigit h2, fromHexDigit h3,
                fromHexDigit h4 with
            | some a, some b, some d, some e2 =>
                let code := a * 4096 + b * 256 + d * 16 + e2
                if validCP code then some (Char.ofNat code, cs3) else none
            | _, _, _, _ => none
        | _ => none
      else none

/-- Parse the body of a JSON string after the opening quote, returning
the decoded string and the input after the closing quote.  Raw control
characters are rejected.  The fuel argument is a termination device
only: every step consumes at least one input character, so
`length + 1` fuel always suffices (see the `parseStr` wrapper). -/
def parseStrF : Nat → List Char → Option (Str × List Char)
  | 0, _ => none
  | _ + 1, [] => none
  | fuel + 1, c :: cs =>
      let n := c.toNat
      if n = 34 then some ([], cs)
      else if n = 92 then
        match escStep cs with
        | some p => (parseStrF fuel p.2).map (fun q => (p.1 :: q.1, q.2))
        | none => none
      else if n < 32 then none
      else (parseStrF fuel cs).map (fun q => (c :: q.1, q.2))

/-- Parse a JSON string body with always-sufficient fuel. -/
def parseStr (l : List Char) : Option (Str × List Char) :=
  parseStrF (l.length + 1) l

mutual
/-- Parse one JSON value (string, array or object). -/
def parseVal : Nat → List Char → Option (Val × List Char)
  | 0, _ => none
  | fuel + 1, cs =>
      match cs with
      | [] => none
      | c :: cs2 =>
          let n := c.toNat
          if n = 34 then (parseStr cs2).map (fun p => (Val.vstr p.1, p.2))
          else if n = 91 then
            match cs2 with
            | [] => none
            | d :: cs3 =>
                if d.toNat = 93 then some (.varr .nil, cs3)
                else
                  match parseItems fuel cs2 with
                  | none => none
                  | some p =>
                      match p.2 with
                      | e :: cs4 => if e.toNat = 93 then some (.varr p.1, cs4) else none
                      | [] => none
          else if n = 123 then
            match cs2 with
            | [] => none
            | d :: cs3 =>
                if d.toNat = 125 then some (.vobj .nil, cs3)
                else
                  match parseFields fuel cs2 with
                  | none => none
                  | some p =>
                      match p.2 with
                      | e :: cs4 => if e.toNat = 125 then some (.vobj p.1, cs4) else none
                      | [] => none
          else none

/-- Parse a non-empty comma-separated element list. -/
def parseItems : Nat → List Char → Option (ValList × List Char)
  | 0, _ => none
  | fuel + 1, cs =>
      match parseVal fuel cs with
      | none => none
      | some p =>
          match parseItemsTail fuel p.2 with
          | none => none
          | some q => some (.cons p.1 q.1, q.2)

/-- Parse the remaining elements while a comma follows. -/
def parseItemsTail : Nat → List Char → Option (ValList × List Char)
  | 0, _ => none
  | fuel + 1, cs =>
      match cs with
      | [] => some (.nil, [])
      | c :: cs2 =>
          if c.toNat = 44 then
            match parseVal fuel cs2 with
            | none => none
            | some p =>
                match parseItemsTail fuel p.2 with
                | none => none
                | some q => some (.cons p.1 q.1, q.2)
          else some (.nil, cs)

/-- Parse a non-empty comma-separated field list (`"key":value`). -/
def parseFields : Nat → List Char → Option (ObjList × List Char)
  | 0, _ => none
  | fuel + 1, cs =>
      match cs with
      | [] => none
      | c :: cs2 =>
          if c.toNat = 34 then
            match parseStr cs2 with
            | none => none
            | some pk =>
                match pk.2 with
                | [] => none
                | d :: cs3 =>
                    if d.toNat = 58 then
                      match parseVal fuel cs3 with
                      | none => none
                      | some pv =>
                          match parseFieldsTail fuel pv.2 with
                          | none => none
                          | some q => some (.cons pk.1 pv.1 q.1, q.2)
                    else none
          else none

/-- Parse the remaining fields while a comma follows. -/
def parseFieldsTail : Nat → List Char → Option (ObjList × List Char)
  | 0, _ => none
  | fuel + 1, cs =>
      match cs with
      | [] => some (.nil, [])
      | c :: cs2 =>
          if c.toNat = 44 then
            match cs2 with
            | [] => none
            | d :: cs3 =>
                if d.toNat = 34 then
                  match parseStr cs3 with
                  | none => none
                  | some pk =>
                      match pk.2 with
                      | [] => none
                      | e :: cs4 =>
                          if e.toNat = 58 then
                            match parseVal fuel cs4 with
                            | none => none
                            | some pv =>
                                match parseFieldsTail fuel pv.2 with
                                | none => none
                                | some q => some (.cons pk.1 pv.1 q.1, q.2)
                          else none
                else none
          else some (.nil, cs)
end

/-!
## encodeURIComponent / decodeURIComponent

`encodeURIComponent` leaves the unreserved characters (ALPHA, DIGIT and
`- _ . ! ~ * ' ( )`) verbatim and percent-encodes the UTF-8 bytes of
every other character, in uppercase hex.  `decodeURIComponent` follows
the ECMA-262 decoding algorithm: a `%` starts a byte; a lead byte
determines how many `%`-escaped continuation bytes follow; overlong or
invalid sequences fail.
-/

/-- The ECMA `uriUnescaped` character set, by character code. -/
def uriUnreserved (n : Nat) : Bool :=
  (65 ≤ n && n ≤ 90) || (97 ≤ n && n ≤ 122) || (48 ≤ n && n ≤ 57) ||
  n = 45 || n = 95 || n = 46 || n = 33 || n = 126 || n = 42 || n = 39 ||
  n = 40 || n = 41

/-- The UTF-8 bytes of a scalar value. -/
def utf8Bytes (n : Nat) : List Nat :=
  if n < 128 then [n]
  else if n < 2048 then [192 + n / 64, 128 + n % 64]
  else if n < 65536 then [224 + n / 4096, 128 + (n / 64) % 64, 128 + n % 64]
  else [240 + n / 262144, 128 + (n / 4096) % 64, 128 + (n / 64) % 64, 128 + n % 64]

/-- One percent-escaped byte: `%XX` in uppercase hex. -/
def pctByte (b : Nat) : List Char :=
  [Char.ofNat 37, hexDigitUpper (b / 16), hexDigitUpper (b % 16)]

/-- `encodeURIComponent`. -/
def pencode (s : Str) : List Char :=
  s.flatMap (fun c =>
    if uriUnreserved c.toNat then [c] else (utf8Bytes c.toNat).flatMap pctByte)

/-- Read two hex digits as a byte. -/
def hexPair (h1 h2 : Char) : Option Nat :=
  match fromHexDigit h1, fromHexDigit h2 with
  | some a, some b => some (a * 16 + b)
  | _, _ => none

/-- Read a `%`-escaped UTF-8 continuation byte (`10xxxxxx`) from the
head of the input and strip its tag bits. -/
def readCont : List Char → Option (Nat × List Char)
  | p :: h1 :: h2 :: rest =>
      if p.toNat = 37 then
        match hexPair h1 h2 with
        | some b => if 128 ≤ b && b < 192 then some (b - 128, rest) else none
        | none => none
      else none
  | _ => none

/-- Decode one character of `decodeURIComponent` input: a literal
character passes through; a `%` begins a byte whose leading bits say how
many `%`-escaped continuation bytes follow; overlong or invalid
sequences fail. -/
def decodeStep : List Char → Option (Char × List Char)
  | [] => none
  | c :: cs =>
      if c.toNat = 37 then
        match cs with
        | h1 :: h2 :: cs2 =>
            match hexPair h1 h2 with
            | none => none
            | some b =>
                if b < 128 then some (Char.ofNat b, cs2)
                else if b < 192 then none
                else if b < 224 then
                  match readCont cs2 with
                  | none => none
                  | some p =>
                      let n := (b - 192) * 64 + p.1
                      if 128 ≤ n && validCP n then some (Char.ofNat n, p.2) else none
                else if b < 240 then
                  match readCont cs2 with
                  | none => none
                  | some p =>
                      match readCont p.2 with
                      | none => none
                      | some q =>
                          let n := (b - 224) * 4096 + p.1 * 64 + q.1
                          if 2048 ≤ n && validCP n then some (Char.ofNat n, q.2)
                          else none
                else if b < 248 then
                  match readCont cs2 with
                  | none => none
                  | some p =>
                      match readCont p.2 with
                      | none => none
                      | some q =>
                          match readCont q.2 with
                          | none => none
                          | some w =>
                              let n := (b - 240) * 262144 + p.1 * 4096
                                + q.1 * 64 + w.1
                              if 65536 ≤ n && validCP n then some (Char.ofNat n, w.2)
                              else none
                else none
        | _ => none
      else some (c, cs)

/-- The `decodeURIComponent` loop.  The fuel argument is a termination
device only: every step consumes at least one input character, so
`length + 1` fuel always suffices (see the `pdecode` wrapper). -/
def pdecodeF : Nat → List Char → Option Str
  | _, [] => some []
  | 0, _ :: _ => none
  | fuel + 1, c :: cs =>
      match decodeStep (c :: cs) with
      | some p => (pdecodeF fuel p.2).map (fun r => p.1 :: r)
      | none => none

/-- `decodeURIComponent` with always-sufficient fuel. -/
def pdecode (l : List Char) : Option Str :=
  pdecodeF (l.length + 1) l

/-!
## callable()
-/

/-- The wire payload produced by `callable()`: the requests list is
replaced with its percent-encoded JSON text. -/
structure CallableOut : Type where
  token : Option Str
  intention : Str
  requests : Str

/-- `callable()` (requests.js lines 1100-1110): run `structure()`, then
`JSON.stringify` the requests list and `encodeURIComponent` the
result. -/
def callableRS (rs : RequestSet) : RequestSet × CallableOut :=
  let p := structureRS rs
  (p.1,
   { token := p.2.token, intention := p.2.intention,
     requests := pencode (strVal (.varr p.2.requests)) })

/-- Decode a `callable()` requests blob: percent-decode, then JSON-parse
the text, accepting exactly a whole-input array. -/
def decodeRequestsBlob (s : Str) : Option ValList :=
  match pdecode s with
  | some t =>
      match parseVal (t.length + 1) t with
      | some (.varr l, []) => some l
      | _ => none
  | none => none

/-!
## Spec-side reference definitions

These follow the wording of the specification (not the source) and are
compared with the embedded code in the refinement theorems below.
-/

/-- Spec wording of `lastIndividualId`: walk the request list from the
most recently added backward, keep only requests of entity kind
`individual`, skip `skip` matches, and return the next match's
individual id. -/
def lastIndividualIdSpec (rs : RequestSet) (skip : Nat) : Option Str :=
  ((rs.requests.reverse.filter (fun r => decide (r.entity = str "individual"))).get?
    skip).map (fun r => r.individual_id.var)

/-- Spec wording of `lastFactTriple`: as above for entity kind `edge`,
returning the `[subject, object, predicate]` list of the match. -/
def lastFactTripleSpec (rs : RequestSet) (skip : Nat) : Option (List (Option Val)) :=
  ((rs.requests.reverse.filter (fun r => decide (r.entity = str "edge"))).get?
    skip).map (fun r =>
      [reqGet r (str "subject"), reqGet r (str "object"), reqGet r (str "predicate")])

/-- A triple field counts as present when it is a truthy string; an
absent field and the JS-falsy empty string both fail the source's
`triple[i]` guard. -/
abbrev fieldPresent (f : Option Str) : Prop := optStrTruthy f = true

/-!
## Helper lemmas
-/

theorem ObjList.lookup_set_self (l : ObjList) (k : Str) (v : Val) :
    (l.set k v).lookup k = some v :=
  match l with
  | .nil => by simp [ObjList.set, ObjList.lookup]
  | .cons k2 v2 t => by
      by_cases h : k2 = k
      · simp [ObjList.set, ObjList.lookup, h]
      · simp [ObjList.set, ObjList.lookup, h, ObjList.lookup_set_self t k v]

theorem ObjList.lookup_set_ne (l : ObjList) (k k2 : Str) (v : Val) (h : k ≠ k2) :
    (l.set k v).lookup k2 = l.lookup k2 :=
  match l with
  | .nil => by simp [ObjList.set, ObjList.lookup, h]
  | .cons k3 v3 t => by
      by_cases h3 : k3 = k
      · subst h3; simp [ObjList.set, ObjList.lookup, h]
      · simp [ObjList.set, ObjList.lookup, h3, ObjList.lookup_set_ne t k k2 v h]

theorem rsAdd_action (rs : RequestSet) (r : Request) :
    rsAdd rs r (some (str "action")) =
      { rs with intention := str "action", requests := rs.requests ++ [r] } := by
  have h1 : (!optStrTruthy (some (str "action"))) = false := by decide
  simp [rsAdd, h1]

theorem rsAdd_query (rs : RequestSet) (r : Request) :
    rsAdd rs r (some (str "query")) = { rs with requests := rs.requests ++ [r] } := by
  have h1 : (!optStrTruthy (some (str "query"))) = false := by decide
  have h2 : ¬ (some (str "query") = some (str "action")) := by decide
  simp [rsAdd, h1, h2]

theorem rsAdd_no_hint (rs : RequestSet) (r : Request) :
    rsAdd rs r none =
      { rs with intention := str "action", requests := rs.requests ++ [r] } := by
  simp [rsAdd, optStrTruthy]

/-!
## C1: implicit variable binding in objectify
-/

/-- C1.  For a request of entity kind `individual`: when the individual
id was never explicitly set (the variable's flag is off), the serialized
arguments carry `assign-to-variable` equal to the variable's
auto-generated value; when it was explicitly set (and, as for every
request built through the API, no `assign-to-variable` argument was
planted by hand), the serialized arguments carry no `assign-to-variable`
key.  The final conjunct ties `objectifyArgs` to the full `objectify`
output object. -/
theorem spec_c1 (r : Request) (he : r.entity = str "individual") :
    (r.individual_id.usevar = false →
      (objectifyArgs r).lookup keyAssign = some (.vstr r.individual_id.var)) ∧
    (r.individual_id.usevar = true → r.args.lookup keyAssign = none →
      (objectifyArgs r).lookup keyAssign = none) ∧
    (objectify r).2 =
      .vobj (.cons (str "entity") (.vstr r.entity)
            (.cons (str "operation") (.vstr r.operation)
            (.cons (str "arguments") (.vobj (objectifyArgs r)) .nil))) := by
  refine ⟨fun hu => ?_, fun hu hl => ?_, rfl⟩
  · simp [objectifyArgs, he, hu, ObjList.lookup_set_self]
  · simp [objectifyArgs, he, hu, hl]

theorem spec_c1_witness :
    (objectifyArgs (mkRequest (str "individual") (str "add") (str "u"))).lookup keyAssign
      = some (.vstr (str "u")) ∧
    (objectifyArgs ((reqIndividual (mkRequest (str "individual") (str "add") (str "u"))
        (some (str "i1"))).1)).lookup keyAssign = none :=
  ⟨(spec_c1 (mkRequest (str "individual") (str "add") (str "u")) rfl).1 rfl,
   (spec_c1 ((reqIndividual (mkRequest (str "individual") (str "add") (str "u"))
       (some (str "i1"))).1) rfl).2.1 rfl rfl⟩

/-!
## C6: request-variable mutability (corrected)
-/

/-- C6 counterexample.  A variable constructed with explicit value `a`
and then set again via `value("b")` stores `b`, not the value from the
first explicit set — the claimed after-first-set immutability fails. -/
theorem spec_c6_counterexample :
    (rvValue (mkRequestVariable (str "u") (some (str "a"))) (some (str "b"))).1.var
      = str "b" ∧
    ¬ (rvValue (mkRequestVariable (str "u") (some (str "a"))) (some (str "b"))).1.var
      = str "a" := by
  constructor
  · rfl
  · decide

/-- C6 amended.  Every `value(w)` call with a truthy (non-empty)
argument overwrites the stored value and marks it explicit — the last
write wins, so explicit sets may happen any number of times; a call with
no argument or with the falsy empty string leaves the variable
unchanged and returns the current value. -/
theorem spec_c6_amended (rv : RequestVariable) (w : Str) (h : strTruthy w = true) :
    rvValue rv (some w) = ({ var := w, usevar := true }, w) ∧
    rvValue rv none = (rv, rv.var) ∧
    rvValue rv (some []) = (rv, rv.var) := by
  refine ⟨?_, rfl, rfl⟩
  simp [rvValue, h]

theorem spec_c6_amended_witness :
    rvValue (mkRequestVariable (str "u") none) (some (str "b"))
      = ({ var := str "b", usevar := true }, str "b") :=
  (spec_c6_amended (mkRequestVariable (str "u") none) (str "b") (by decide)).1

/-!
## C5: fact-triple validation
-/

/-- C5.  For a triple argument with any of the three fields absent (or
JS-falsy), `add_fact`, `remove_fact`, `add_annotation_to_fact` and
`remove_annotation_from_fact` throw the `triple did not look like a
proper fact` error; with all three fields present none of the four
calls throws, and no request-set state is lost. -/
theorem spec_c5 (rs : RequestSet) (u : Str) (f0 f1 f2 : Option Str)
    (key value mid : Option Str) :
    (¬ fieldPresent f0 ∨ ¬ fieldPresent f1 ∨ ¬ fieldPresent f2 →
      (rsAddFact rs u (some [f0, f1, f2]) mid).2 = some .factMalformed ∧
      (rsRemoveFact rs u (some [f0, f1, f2]) mid).2 = some .factMalformed ∧
      (rsAddAnnToFact rs u key value (some [f0, f1, f2]) mid).2 = some .factMalformed ∧
      (rsRemoveAnnFromFact rs u key value (some [f0, f1, f2]) mid).2
        = some .factMalformed) ∧
    (fieldPresent f0 → fieldPresent f1 → fieldPresent f2 →
      (rsAddFact rs u (some [f0, f1, f2]) mid).2 = none ∧
      (rsRemoveFact rs u (some [f0, f1, f2]) mid).2 = none ∧
      (rsAddAnnToFact rs u key value (some [f0, f1, f2]) mid).2 = none ∧
      (rsRemoveAnnFromFact rs u key value (some [f0, f1, f2]) mid).2 = none) := by
  constructor
  · intro h
    have hef : ensureFactOk (some [f0, f1, f2]) = false := by
      rcases h with h | h | h <;>
        simp only [fieldPresent, Bool.not_eq_true] at h <;>
        simp [ensureFactOk, tripleField, h]
    simp [rsAddFact, rsRemoveFact, rsAddAnnToFact, rsRemoveAnnFromFact, hef]
  · intro h0 h1 h2
    simp only [fieldPresent] at h0 h1 h2
    have hef : ensureFactOk (some [f0, f1, f2]) = true := by
      simp [ensureFactOk, tripleField, h0, h1, h2]
    refine ⟨by simp [rsAddFact, hef], by simp [rsRemoveFact, hef], ?_, ?_⟩
    · simp only [rsAddAnnToFact, hef, if_true]
      rw [rsOpAnnToTarget, if_pos (Or.inl rfl)]
      simp only [hef]
      by_cases hkv : (optStrTruthy key && optStrTruthy value) = true <;>
        simp [hkv, reqAddAnnPairs]
    · simp only [rsRemoveAnnFromFact, hef, if_true]
      rw [rsOpAnnToTarget, if_pos (Or.inr rfl)]
      simp only [hef]
      by_cases hkv : (optStrTruthy key && optStrTruthy value) = true <;>
        simp [hkv, reqAddAnnPairs]

theorem spec_c5_witness :
    (rsAddFact (mkRequestSet none none) (str "u")
      (some [some (str "i1"), none, some (str "part_of")]) none).2
      = some .factMalformed ∧
    (rsAddFact (mkRequestSet none none) (str "u")
      (some [some (str "i1"), some (str "i2"), some (str "part_of")]) none).2 = none :=
  ⟨((spec_c5 (mkRequestSet none none) (str "u") (some (str "i1")) none
      (some (str "part_of")) none none none).1
      (Or.inr (Or.inl (by decide)))).1,
   ((spec_c5 (mkRequestSet none none) (str "u") (some (str "i1")) (some (str "i2"))
      (some (str "part_of")) none none none).2
      (by decide) (by decide) (by decide)).1⟩

/-!
## C10: silent no-op of the type-toggle macros on missing arguments
-/

/-- C10.  With a falsy class expression or a falsy individual id,
`add_type_to_individual` and `remove_type_from_individual` return the
request set unchanged (no request appended, intention untouched) and
raise nothing. -/
theorem spec_c10 (rs : RequestSet) (u : Str) (classExpr : Option Val)
    (indId mid : Option Str)
    (h : classExpr = none ∨ optStrTruthy indId = false) :
    rsAddTypeToIndividual rs u classExpr indId mid = (rs, none) ∧
    rsRemoveTypeFromIndividual rs u classExpr indId mid = (rs, none) := by
  rcases h with h | h
  · subst h
    exact ⟨rfl, rfl⟩
  · cases classExpr with
    | none => exact ⟨rfl, rfl⟩
    | some e =>
        constructor <;>
          simp [rsAddTypeToIndividual, rsRemoveTypeFromIndividual,
            rsOpTypeToIndividual, h]

theorem spec_c10_witness :
    rsAddTypeToIndividual (mkRequestSet none none) (str "u")
      (some (.vstr (str "GO:1"))) none none = (mkRequestSet none none, none) :=
  (spec_c10 (mkRequestSet none none) (str "u") (some (.vstr (str "GO:1"))) none none
    (Or.inr (by decide))).1

/-!
## C4: backward lookup with skip count
-/

theorem lastIndividualIdGo_eq (l : List Request) (skip : Nat) :
    lastIndividualIdGo l skip =
      ((l.filter (fun r => decide (r.entity = str "individual"))).get? skip).map
        (fun r => r.individual_id.var) := by
  induction l generalizing skip with
  | nil => simp [lastIndividualIdGo]
  | cons r t ih =>
      by_cases h : r.entity = str "individual"
      · cases skip with
        | zero => simp [lastIndividualIdGo, h]
        | succ k => simp [lastIndividualIdGo, h, ih]
      · simp [lastIndividualIdGo, h, ih]

theorem lastFactTripleGo_eq (l : List Request) (skip : Nat) :
    lastFactTripleGo l skip =
      ((l.filter (fun r => decide (r.entity = str "edge"))).get? skip).map
        (fun r => [reqGet r (str "subject"), reqGet r (str "object"),
                   reqGet r (str "predicate")]) := by
  induction l generalizing skip with
  | nil => simp [lastFactTripleGo]
  | cons r t ih =>
      by_cases h : r.entity = str "edge"
      · cases skip with
        | zero => simp [lastFactTripleGo, h]
        | succ k => simp [lastFactTripleGo, h, ih]
      · simp [lastFactTripleGo, h, ih]

/-- C4.  `last_individual_id(skip)` and `last_fact_triple(skip)` equal
their spec-side descriptions (scan the request list strictly backward,
keep the matching entity kind, skip `skip` matches, return the next
match's individual id resp. `[subject, object, predicate]` list), and
each returns the null sentinel exactly when fewer than `skip + 1`
requests of that kind exist. -/
theorem spec_c4 (rs : RequestSet) (skip : Nat) :
    lastIndividualId rs skip = lastIndividualIdSpec rs skip ∧
    lastFactTriple rs skip = lastFactTripleSpec rs skip ∧
    (lastIndividualId rs skip = none ↔
      (rs.requests.filter (fun r => decide (r.entity = str "individual"))).length
        < skip + 1) ∧
    (lastFactTriple rs skip = none ↔
      (rs.requests.filter (fun r => decide (r.entity = str "edge"))).length
        < skip + 1) := by
  have h1 := lastIndividualIdGo_eq rs.requests.reverse skip
  have h2 := lastFactTripleGo_eq rs.requests.reverse skip
  refine ⟨h1, h2, ?_, ?_⟩
  · rw [lastIndividualId, h1]
    simp [List.get?_eq_none, Nat.lt_succ_iff]
  · rw [lastFactTriple, h2]
    simp [List.get?_eq_none, Nat.lt_succ_iff]

/-!
## C9: add_evidence without a target is not atomic
-/

/-- C9.  Calling `add_evidence` with a truthy evidence id and truthy
source ids but no target identifier throws `no target identified for
evidence add` only after the floating evidence individual and its
`source` annotation request have been appended: the surviving state is
exactly two requests longer and its intention has been elevated to
`action`. -/
theorem spec_c9 (rs : RequestSet) (u1 u2 u3 : Str) (eExpr : Val) (sources : AnnArg)
    (mid : Option Str) (hs : annArgTruthy sources = true) :
    (rsAddEvidence rs u1 u2 u3 (some eExpr) sources none mid).2
      = some .noEvidenceTarget ∧
    (rsAddEvidence rs u1 u2 u3 (some eExpr) sources none mid).1.requests.length
      = rs.requests.length + 2 ∧
    (rsAddEvidence rs u1 u2 u3 (some eExpr) sources none mid).1.intention
      = str "action" := by
  cases sources with
  | anone => simp [annArgTruthy] at hs
  | astr s =>
      simp [rsAddEvidence, hs, reqAddAnnPairs, rsAdd_action]
  | alist l =>
      simp [rsAddEvidence, hs, reqAddAnnPairs, rsAdd_action]

theorem spec_c9_witness :
    (rsAddEvidence (mkRequestSet none none) (str "u1") (str "u2") (str "u3")
      (some (.vstr (str "ECO:0000000"))) (.astr (str "PMID:123")) none none).2
      = some .noEvidenceTarget ∧
    (rsAddEvidence (mkRequestSet none none) (str "u1") (str "u2") (str "u3")
      (some (.vstr (str "ECO:0000000"))) (.astr (str "PMID:123")) none none).1.requests.length
      = (mkRequestSet none none).requests.length + 2 ∧
    (rsAddEvidence (mkRequestSet none none) (str "u1") (str "u2") (str "u3")
      (some (.vstr (str "ECO:0000000"))) (.astr (str "PMID:123")) none none).1.intention
      = str "action" :=
  spec_c9 (mkRequestSet none none) (str "u1") (str "u2") (str "u3")
    (.vstr (str "ECO:0000000")) (.astr (str "PMID:123")) none (by decide)

/-!
## C3: add_evidence request counts (corrected)
-/

/-- C3 counterexample.  A successful `add_evidence` whose target is an
individual id appends three requests, not the claimed two; consequently
the `addIndividual` + `addEvidenceToLastIndividual` scenario produces
four requests in total, not the claimed 1 + 2 = 3. -/
theorem spec_c3_counterexample :
    ((rsAddEvidence (mkRequestSet none none) (str "u1") (str "u2") (str "u3")
        (some (.vstr (str "ECO:0000000"))) (.astr (str "PMID:123"))
        (some (.tind (str "GO:ind1"))) none).1.requests.length = 3 ∧
      ¬ (rsAddEvidence (mkRequestSet none none) (str "u1") (str "u2") (str "u3")
        (some (.vstr (str "ECO:0000000"))) (.astr (str "PMID:123"))
        (some (.tind (str "GO:ind1"))) none).1.requests.length = 2) ∧
    ((rsAddEvidenceToLastIndividual
        (rsAddIndividual (mkRequestSet none none) (str "u0")
          (some (.vstr (str "GO:0008150"))) none).1
        (str "u1") (str "u2") (str "u3") (some (.vstr (str "ECO:0000000")))
        (.astr (str "PMID:123")) none).1.requests.length = 4 ∧
      ¬ (rsAddEvidenceToLastIndividual
        (rsAddIndividual (mkRequestSet none none) (str "u0")
          (some (.vstr (str "GO:0008150"))) none).1
        (str "u1") (str "u2") (str "u3") (some (.vstr (str "ECO:0000000")))
        (.astr (str "PMID:123")) none).1.requests.length = 3) := by
  exact ⟨⟨rfl, by decide⟩, ⟨rfl, by decide⟩⟩

/-- The individual-target branch of `add_evidence` with a single source
string: no error, exactly three appended requests, and the final
(evidence-annotation) request targets the given individual id both in
its request variable and in its `individual` argument. -/
theorem rsAddEvidence_tind_astr (rs : RequestSet) (u1 u2 u3 tid : Str) (eExpr : Val)
    (s : Str) (mid : Option Str) (hs : strTruthy s = true) (htid : strTruthy tid = true) :
    (rsAddEvidence rs u1 u2 u3 (some eExpr) (.astr s) (some (.tind tid)) mid).2
      = none ∧
    (rsAddEvidence rs u1 u2 u3 (some eExpr) (.astr s) (some (.tind tid)) mid).1.requests.length
      = rs.requests.length + 3 ∧
    (rsAddEvidence rs u1 u2 u3 (some eExpr) (.astr s) (some (.tind tid)) mid).1.intention
      = str "action" ∧
    ∃ r, (rsAddEvidence rs u1 u2 u3 (some eExpr) (.astr s) (some (.tind tid)) mid).1.requests.getLast?
        = some r ∧
      r.individual_id.var = tid ∧ r.args.lookup (str "individual") = some (.vstr tid) := by
  have h1 : ¬ (str "model-id" = str "individual") := by decide
  have h2 : ¬ (str "model-id" = str "values") := by decide
  have h3 : ¬ (str "individual" = str "values") := by decide
  have hs2 : annArgTruthy (.astr s) = true := hs
  simp only [rsAddEvidence, hs2, if_true, reqAddAnnPairs, htid, rsAdd_action]
  refine ⟨by simp, by simp, by simp, ?_⟩
  rw [List.append_assoc, List.append_assoc]
  simp only [List.getLast?_append, List.getLast?_cons, List.getLast?_nil]
  refine ⟨_, rfl, ?_, ?_⟩
  · simp [reqIndividual, htid, rvValue, reqAdd]
  · cases mid with
    | none =>
        simp [reqIndividual, htid, rvValue, reqAdd, argsPushList, reqModelOpt,
          mkRequest, reqModel, reqGetSet, reqGet, ObjList.set, ObjList.lookup,
          mkRequestVariable, optStrTruthy, h1, h2, h3]
    | some m =>
        by_cases hm : strTruthy m = true <;>
          simp [reqIndividual, htid, rvValue, reqAdd, argsPushList, reqModelOpt,
            mkRequest, reqModel, reqGetSet, reqGet, ObjList.set, ObjList.lookup,
            mkRequestVariable, optStrTruthy, valTruthy, hm, h1, h2, h3]

/-- C3 amended.  Every successful `add_evidence` call with truthy
evidence id and source ids appends exactly three requests, whether the
target identifier is an individual id or a fact triple; hence
`addIndividual` followed by `addEvidenceToLastIndividual` appends
1 + 3 = 4 requests, and the final evidence-annotation request's target
individual id equals the id returned by `addIndividual`. -/
theorem spec_c3_amended (rs : RequestSet) (u1 u2 u3 : Str) (eExpr : Val)
    (sources : AnnArg) (mid : Option Str) (hs : annArgTruthy sources = true) :
    (∀ tid, strTruthy tid = true →
      (rsAddEvidence rs u1 u2 u3 (some eExpr) sources (some (.tind tid)) mid).2
        = none ∧
      (rsAddEvidence rs u1 u2 u3 (some eExpr) sources (some (.tind tid)) mid).1.requests.length
        = rs.requests.length + 3) ∧
    (∀ t, ensureFactOk (some t) = true →
      (rsAddEvidence rs u1 u2 u3 (some eExpr) sources (some (.tfact t)) mid).2
        = none ∧
      (rsAddEvidence rs u1 u2 u3 (some eExpr) sources (some (.tfact t)) mid).1.requests.length
        = rs.requests.length + 3) ∧
    (∀ gExpr u0 src, strTruthy u0 = true → strTruthy src = true →
      (rsAddIndividual rs u0 (some gExpr) none).2 = some u0 ∧
      (rsAddEvidenceToLastIndividual (rsAddIndividual rs u0 (some gExpr) none).1
          u1 u2 u3 (some eExpr) (.astr src) mid).1.requests.length
        = rs.requests.length + 4 ∧
      ∃ r, (rsAddEvidenceToLastIndividual (rsAddIndividual rs u0 (some gExpr) none).1
          u1 u2 u3 (some eExpr) (.astr src) mid).1.requests.getLast? = some r ∧
        r.individual_id.var = u0 ∧
        r.args.lookup (str "individual") = some (.vstr u0)) := by
  have hind : ∀ tid, strTruthy tid = true →
      (rsAddEvidence rs u1 u2 u3 (some eExpr) sources (some (.tind tid)) mid).2
        = none ∧
      (rsAddEvidence rs u1 u2 u3 (some eExpr) sources (some (.tind tid)) mid).1.requests.length
        = rs.requests.length + 3 := by
    intro tid htid
    cases sources with
    | anone => simp [annArgTruthy] at hs
    | astr s => simp [rsAddEvidence, hs, htid, reqAddAnnPairs, rsAdd_action]
    | alist l => simp [rsAddEvidence, hs, htid, reqAddAnnPairs, rsAdd_action]
  refine ⟨hind, fun t ht => ?_, fun gExpr u0 src hu0 hsrc => ?_⟩
  · cases sources with
    | anone => simp [annArgTruthy] at hs
    | astr s => simp [rsAddEvidence, hs, ht, reqAddAnnPairs, rsAdd_action]
    | alist l => simp [rsAddEvidence, hs, ht, reqAddAnnPairs, rsAdd_action]
  · have hlast : lastIndividualId (rsAddIndividual rs u0 (some gExpr) none).1 0
        = some u0 := by
      simp [rsAddIndividual, rsAdd_action, lastIndividualId, lastIndividualIdGo,
        reqAddClassExpression, reqModelOpt, optStrTruthy, mkRequest, mkRequestVariable,
        rvValue]
    have hret : (rsAddIndividual rs u0 (some gExpr) none).2 = some u0 := by
      simp [rsAddIndividual, reqAddClassExpression, reqModelOpt, optStrTruthy,
        mkRequest, mkRequestVariable, rvValue, reqIndividual]
    have hlen1 : (rsAddIndividual rs u0 (some gExpr) none).1.requests.length
        = rs.requests.length + 1 := by
      simp [rsAddIndividual, rsAdd_action]
    have hmain := rsAddEvidence_tind_astr (rsAddIndividual rs u0 (some gExpr) none).1
      u1 u2 u3 u0 eExpr src mid hsrc hu0
    simp only [rsAddEvidenceToLastIndividual, hlast, hu0, if_true]
    exact ⟨hret, by rw [hmain.2.1, hlen1], hmain.2.2.2⟩

theorem spec_c3_amended_witness :
    ((rsAddEvidence (mkRequestSet none none) (str "u1") (str "u2") (str "u3")
        (some (.vstr (str "ECO:0000000"))) (.astr (str "PMID:123"))
        (some (.tind (str "GO:ind1"))) none).1.requests.length
      = (mkRequestSet none none).requests.length + 3) ∧
    ((rsAddIndividual (mkRequestSet none none) (str "u0")
        (some (.vstr (str "GO:0008150"))) none).2 = some (str "u0")) :=
  ⟨((spec_c3_amended (mkRequestSet none none) (str "u1") (str "u2") (str "u3")
      (.vstr (str "ECO:0000000")) (.astr (str "PMID:123")) none (by decide)).1
      (str "GO:ind1") (by decide)).2,
   ((spec_c3_amended (mkRequestSet none none) (str "u1") (str "u2") (str "u3")
      (.vstr (str "ECO:0000000")) (.astr (str "PMID:123")) none (by decide)).2.2
      (.vstr (str "GO:0008150")) (str "u0") (str "PMID:123")
      (by decide) (by decide)).1⟩

/-!
## C7: model-id back-fill at structure() time
-/

theorem objectifyArgs_lookup_ne (r : Request) (k : Str) (hk : ¬ (keyAssign = k)) :
    (objectifyArgs r).lookup k = r.args.lookup k := by
  unfold objectifyArgs
  split
  · exact ObjList.lookup_set_ne _ _ _ _ hk
  · rfl

theorem structStep_snd (m : Option Str) (l : List Request) :
    (structStep m l).2 = l.map (fun r => (objectify (backfillReq m r)).2) := by
  induction l with
  | nil => rfl
  | cons r t ih => simp [structStep, ih]

/-- C7.  With a truthy default model id on the request set, `structure()`
returns `{token, intention, requests}` with the serialized requests in
exact append order; a member request without a truthy `model-id`
argument gets the default back-filled into its serialized `model-id`
argument, while a request with its own model id keeps it; and `add`
only appends — it never touches the model accessor of any request, so
the back-fill happens at serialization time only. -/
theorem spec_c7 (rs : RequestSet) (m : Str) (h1 : rs.model_id = some m)
    (h2 : strTruthy m = true) :
    ((structureRS rs).2.token = rs.user_token) ∧
    ((structureRS rs).2.intention = rs.intention) ∧
    ((structureRS rs).2.requests
      = ValList.ofList (rs.requests.map (fun r => (objectify (backfillReq rs.model_id r)).2))) ∧
    (∀ r, optValTruthy (reqGet r (str "model-id")) = false →
      (objectifyArgs (backfillReq rs.model_id r)).lookup (str "model-id")
        = some (.vstr m)) ∧
    (∀ r v, reqGet r (str "model-id") = some v → valTruthy v = true →
      (objectifyArgs (backfillReq rs.model_id r)).lookup (str "model-id") = some v) ∧
    (∀ req hint, (rsAdd rs req hint).requests = rs.requests ++ [req]) := by
  have hka : ¬ (keyAssign = str "model-id") := by decide
  refine ⟨rfl, rfl, ?_, ?_, ?_, ?_⟩
  · simp [structureRS, structStep_snd]
  · intro r hr
    have hb : backfillReq rs.model_id r = reqAdd r (str "model-id") (.vstr m) := by
      simp [backfillReq, hr, h1, optStrTruthy, h2, reqModel, reqGetSet, valTruthy]
    rw [hb, objectifyArgs_lookup_ne _ _ hka]
    exact ObjList.lookup_set_self _ _ _
  · intro r v hv htv
    have hb : backfillReq rs.model_id r = r := by
      simp [backfillReq, hv, optValTruthy, htv]
    rw [hb, objectifyArgs_lookup_ne _ _ hka]
    exact hv
  · intro req hint
    simp [rsAdd]

theorem spec_c7_witness :
    ((structureRS (mkRequestSet none (some (str "M:1")))).2.token = none) ∧
    ((objectifyArgs (backfillReq (mkRequestSet none (some (str "M:1"))).model_id
        (mkRequest (str "individual") (str "add") (str "u")))).lookup (str "model-id")
      = some (.vstr (str "M:1"))) :=
  ⟨(spec_c7 (mkRequestSet none (some (str "M:1"))) (str "M:1") rfl (by decide)).1,
   (spec_c7 (mkRequestSet none (some (str "M:1"))) (str "M:1") rfl (by decide)).2.2.2.1
     (mkRequest (str "individual") (str "add") (str "u")) (by decide)⟩

/-!
## C2: monotone intention elevation

`Op` enumerates the request-set API calls (the raw `add` and every macro
builder), each with the generated uuid(s) and the caller's arguments;
`applyOp` runs one call, keeping the state mutations of a call that
throws; `runOps` runs a call sequence.
-/

inductive Op : Type where
  | add (req : Request) (hint : Option Str)
  | addIndividual (uuid : Str) (classExpr : Option Val) (modelId : Option Str)
  | removeIndividual (uuid : Str) (id modelId : Option Str)
  | addTypeToIndividual (uuid : Str) (classExpr : Option Val) (id modelId : Option Str)
  | removeTypeFromIndividual (uuid : Str) (classExpr : Option Val) (id modelId : Option Str)
  | addFact (uuid : Str) (triple : TripleArg) (modelId : Option Str)
  | removeFact (uuid : Str) (triple : TripleArg) (modelId : Option Str)
  | addEvidence (u1 u2 u3 : Str) (evidenceExpr : Option Val) (sourceIds : AnnArg)
      (target : Option TargetArg) (modelId : Option Str)
  | removeEvidence (uuid : Str) (id modelId : Option Str)
  | addEvidenceToLastIndividual (u1 u2 u3 : Str) (evidenceExpr : Option Val)
      (sourceIds : AnnArg) (modelId : Option Str)
  | addEvidenceToLastFact (u1 u2 u3 : Str) (evidenceExpr : Option Val)
      (sourceIds : AnnArg) (modelId : Option Str)
  | addAnnToModel (uuid : Str) (key value modelId : Option Str)
  | removeAnnFromModel (uuid : Str) (key value modelId : Option Str)
  | addAnnToIndividual (uuid : Str) (key value id modelId : Option Str)
  | removeAnnFromIndividual (uuid : Str) (key value id modelId : Option Str)
  | addAnnToFact (uuid : Str) (key value : Option Str) (triple : TripleArg)
      (modelId : Option Str)
  | removeAnnFromFact (uuid : Str) (key value : Option Str) (triple : TripleArg)
      (modelId : Option Str)
  | undoLastModelBatch (uuid : Str) (modelId : Option Str)
  | redoLastModelBatch (uuid : Str) (modelId : Option Str)
  | getMeta (uuid : Str)
  | getModel (uuid : Str) (modelId : Option Str)
  | getUndoRedo (uuid : Str) (modelId : Option Str)
  | addModel (uuid : Str) (clsId taxId : Option Str)
  | storeModel (uuid : Str) (modelId : Option Str)

/-- Run one API call on the request set.  Return values and thrown
errors are dropped: the caller sequence continues from the surviving
mutated state either way. -/
def applyOp (rs : RequestSet) : Op → RequestSet
  | .add req hint => rsAdd rs req hint
  | .addIndividual u c m => (rsAddIndividual rs u c m).1
  | .removeIndividual u i m => rsRemoveIndividual rs u i m
  | .addTypeToIndividual u c i m => (rsAddTypeToIndividual rs u c i m).1
  | .removeTypeFromIndividual u c i m => (rsRemoveTypeFromIndividual rs u c i m).1
  | .addFact u t m => (rsAddFact rs u t m).1
  | .removeFact u t m => (rsRemoveFact rs u t m).1
  | .addEvidence u1 u2 u3 e s t m => (rsAddEvidence rs u1 u2 u3 e s t m).1
  | .removeEvidence u i m => rsRemoveEvidence rs u i m
  | .addEvidenceToLastIndividual u1 u2 u3 e s m =>
      (rsAddEvidenceToLastIndividual rs u1 u2 u3 e s m).1
  | .addEvidenceToLastFact u1 u2 u3 e s m =>
      (rsAddEvidenceToLastFact rs u1 u2 u3 e s m).1
  | .addAnnToModel u k v m => (rsAddAnnToModel rs u k v m).1
  | .removeAnnFromModel u k v m => (rsRemoveAnnFromModel rs u k v m).1
  | .addAnnToIndividual u k v i m => (rsAddAnnToIndividual rs u k v i m).1
  | .removeAnnFromIndividual u k v i m => (rsRemoveAnnFromIndividual rs u k v i m).1
  | .addAnnToFact u k v t m => (rsAddAnnToFact rs u k v t m).1
  | .removeAnnFromFact u k v t m => (rsRemoveAnnFromFact rs u k v t m).1
  | .undoLastModelBatch u m => rsUndoLastModelBatch rs u m
  | .redoLastModelBatch u m => rsRedoLastModelBatch rs u m
  | .getMeta u => rsGetMeta rs u
  | .getModel u m => rsGetModel rs u m
  | .getUndoRedo u m => rsGetUndoRedo rs u m
  | .addModel u c t => rsAddModel rs u c t
  | .storeModel u m => rsStoreModel rs u m

/-- Run a sequence of API calls. -/
def runOps (rs : RequestSet) (ops : List Op) : RequestSet :=
  ops.foldl applyOp rs

/-- The intention either stayed what it was or is now `action`. -/
def intentOk (rs rs2 : RequestSet) : Prop :=
  rs2.intention = rs.intention ∨ rs2.intention = str "action"

theorem intentOk_trans {a b c : RequestSet} (h1 : intentOk a b) (h2 : intentOk b c) :
    intentOk a c := by
  rcases h2 with h2 | h2
  · rcases h1 with h1 | h1
    · exact Or.inl (h2.trans h1)
    · exact Or.inr (h2.trans h1)
  · exact Or.inr h2

theorem intentOk_rsAdd (rs : RequestSet) (r : Request) (hint : Option Str) :
    intentOk rs (rsAdd rs r hint) := by
  unfold intentOk rsAdd
  split_ifs <;> simp

theorem intentOk_rsAdd_of {rs rs2 : RequestSet} (h : intentOk rs rs2)
    (r : Request) (hint : Option Str) : intentOk rs (rsAdd rs2 r hint) :=
  intentOk_trans h (intentOk_rsAdd rs2 r hint)

theorem intentOk_addIndividual (rs : RequestSet) (u : Str) (c : Option Val)
    (m : Option Str) : intentOk rs (rsAddIndividual rs u c m).1 := by
  unfold rsAddIndividual
  cases c with
  | none => exact Or.inl rfl
  | some e => exact intentOk_rsAdd _ _ _

theorem intentOk_removeIndividual (rs : RequestSet) (u : Str) (i m : Option Str) :
    intentOk rs (rsRemoveIndividual rs u i m) := by
  unfold rsRemoveIndividual
  split
  · exact intentOk_rsAdd _ _ _
  · exact Or.inl rfl

theorem intentOk_opType (rs : RequestSet) (u op : Str) (c : Option Val)
    (i m : Option Str) : intentOk rs (rsOpTypeToIndividual rs u op c i m).1 := by
  unfold rsOpTypeToIndividual
  repeat' split
  all_goals first
    | exact Or.inl rfl
    | exact intentOk_rsAdd _ _ _

theorem intentOk_addFact (rs : RequestSet) (u : Str) (t : TripleArg)
    (m : Option Str) : intentOk rs (rsAddFact rs u t m).1 := by
  unfold rsAddFact
  split
  · exact intentOk_rsAdd _ _ _
  · exact Or.inl rfl

theorem intentOk_removeFact (rs : RequestSet) (u : Str) (t : TripleArg)
    (m : Option Str) : intentOk rs (rsRemoveFact rs u t m).1 := by
  unfold rsRemoveFact
  split
  · exact intentOk_rsAdd _ _ _
  · exact Or.inl rfl

theorem intentOk_addEvidence (rs : RequestSet) (u1 u2 u3 : Str) (e : Option Val)
    (s : AnnArg) (t : Option TargetArg) (m : Option Str) :
    intentOk rs (rsAddEvidence rs u1 u2 u3 e s t m).1 := by
  cases e with
  | none => exact Or.inl rfl
  | some eExpr =>
      cases s with
      | anone => exact Or.inl rfl
      | astr s0 =>
          by_cases hs : strTruthy s0 = true
          · cases t with
            | none =>
                simp [rsAddEvidence, hs, reqAddAnnPairs, rsAdd_action, intentOk,
                  annArgTruthy]
            | some tgt =>
                cases tgt with
                | tind tid =>
                    by_cases ht : strTruthy tid = true <;>
                      simp [rsAddEvidence, hs, ht, reqAddAnnPairs, rsAdd_action,
                        intentOk, annArgTruthy]
                | tfact ft =>
                    by_cases hf : ensureFactOk (some ft) = true <;>
                      simp [rsAddEvidence, hs, hf, reqAddAnnPairs, rsAdd_action,
                        intentOk, annArgTruthy]
          · have hs2 : annArgTruthy (.astr s0) = false := by
              simpa [annArgTruthy] using hs
            simp [rsAddEvidence, hs2, intentOk]
      | alist l =>
          cases t with
          | none => simp [rsAddEvidence, reqAddAnnPairs, rsAdd_action, intentOk,
              annArgTruthy]
          | some tgt =>
              cases tgt with
              | tind tid =>
                  by_cases ht : strTruthy tid = true <;>
                    simp [rsAddEvidence, ht, reqAddAnnPairs, rsAdd_action, intentOk,
                      annArgTruthy]
              | tfact ft =>
                  by_cases hf : ensureFactOk (some ft) = true <;>
                    simp [rsAddEvidence, hf, reqAddAnnPairs, rsAdd_action, intentOk,
                      annArgTruthy]

theorem intentOk_removeEvidence (rs : RequestSet) (u : Str) (i m : Option Str) :
    intentOk rs (rsRemoveEvidence rs u i m) := by
  unfold rsRemoveEvidence
  repeat' split
  all_goals first
    | exact Or.inl rfl
    | exact intentOk_removeIndividual _ _ _ _

theorem intentOk_evidenceLastIndividual (rs : RequestSet) (u1 u2 u3 : Str)
    (e : Option Val) (s : AnnArg) (m : Option Str) :
    intentOk rs (rsAddEvidenceToLastIndividual rs u1 u2 u3 e s m).1 := by
  unfold rsAddEvidenceToLastIndividual
  repeat' split
  all_goals first
    | exact Or.inl rfl
    | exact intentOk_addEvidence _ _ _ _ _ _ _ _

theorem intentOk_evidenceLastFact (rs : RequestSet) (u1 u2 u3 : Str)
    (e : Option Val) (s : AnnArg) (m : Option Str) :
    intentOk rs (rsAddEvidenceToLastFact rs u1 u2 u3 e s m).1 := by
  unfold rsAddEvidenceToLastFact
  repeat' split
  all_goals first
    | exact Or.inl rfl
    | exact intentOk_addEvidence _ _ _ _ _ _ _ _

theorem intentOk_opAnn (rs : RequestSet) (u op : Str) (t : AnnTarget)
    (k v m : Option Str) : intentOk rs (rsOpAnnToTarget rs u op t k v m).1 := by
  unfold rsOpAnnToTarget
  repeat' split
  all_goals first
    | exact Or.inl rfl
    | exact intentOk_rsAdd _ _ _

theorem intentOk_annToFact (rs : RequestSet) (u : Str) (k v : Option Str)
    (t : TripleArg) (m : Option Str) :
    intentOk rs (rsAddAnnToFact rs u k v t m).1 ∧
    intentOk rs (rsRemoveAnnFromFact rs u k v t m).1 := by
  constructor
  · unfold rsAddAnnToFact
    repeat' split
    all_goals first
      | exact Or.inl rfl
      | exact intentOk_opAnn _ _ _ _ _ _ _
  · unfold rsRemoveAnnFromFact
    repeat' split
    all_goals first
      | exact Or.inl rfl
      | exact intentOk_opAnn _ _ _ _ _ _ _

theorem intentOk_applyOp (rs : RequestSet) (op : Op) :
    intentOk rs (applyOp rs op) := by
  cases op with
  | add req hint => exact intentOk_rsAdd _ _ _
  | addIndividual u c m => exact intentOk_addIndividual _ _ _ _
  | removeIndividual u i m => exact intentOk_removeIndividual _ _ _ _
  | addTypeToIndividual u c i m => exact intentOk_opType _ _ _ _ _ _
  | removeTypeFromIndividual u c i m => exact intentOk_opType _ _ _ _ _ _
  | addFact u t m => exact intentOk_addFact _ _ _ _
  | removeFact u t m => exact intentOk_removeFact _ _ _ _
  | addEvidence u1 u2 u3 e s t m => exact intentOk_addEvidence _ _ _ _ _ _ _ _
  | removeEvidence u i m => exact intentOk_removeEvidence _ _ _ _
  | addEvidenceToLastIndividual u1 u2 u3 e s m =>
      exact intentOk_evidenceLastIndividual _ _ _ _ _ _ _
  | addEvidenceToLastFact u1 u2 u3 e s m =>
      exact intentOk_evidenceLastFact _ _ _ _ _ _ _
  | addAnnToModel u k v m => exact intentOk_opAnn _ _ _ _ _ _ _
  | removeAnnFromModel u k v m => exact intentOk_opAnn _ _ _ _ _ _ _
  | addAnnToIndividual u k v i m => exact intentOk_opAnn _ _ _ _ _ _ _
  | removeAnnFromIndividual u k v i m => exact intentOk_opAnn _ _ _ _ _ _ _
  | addAnnToFact u k v t m => exact (intentOk_annToFact _ _ _ _ _ _).1
  | removeAnnFromFact u k v t m => exact (intentOk_annToFact _ _ _ _ _ _).2
  | undoLastModelBatch u m => exact intentOk_rsAdd _ _ _
  | redoLastModelBatch u m => exact intentOk_rsAdd _ _ _
  | getMeta u => exact intentOk_rsAdd _ _ _
  | getModel u m => exact intentOk_rsAdd _ _ _
  | getUndoRedo u m => exact intentOk_rsAdd _ _ _
  | addModel u c t => exact intentOk_rsAdd _ _ _
  | storeModel u m => exact intentOk_rsAdd _ _ _

theorem runOps_action (rs : RequestSet) (ops : List Op)
    (h : rs.intention = str "action") :
    (runOps rs ops).intention = str "action" := by
  induction ops generalizing rs with
  | nil => exact h
  | cons op t ih =>
      have h2 : (applyOp rs op).intention = str "action" := by
        rcases intentOk_applyOp rs op with h2 | h2
        · exact h2.trans h
        · exact h2
      exact ih (applyOp rs op) h2

/-- C2.  The batch intention starts at `query`; a raw `add` with no hint
or with hint `action` elevates it to `action`; an `add` with hint
`query` never changes it; and once the intention is `action`, no
sequence of further API calls (raw adds with any hint included) ever
brings it back — `structure().intention` reports `action` from that
point on. -/
theorem spec_c2 :
    (∀ tok mid, (mkRequestSet tok mid).intention = str "query") ∧
    (∀ rs req, (rsAdd rs req none).intention = str "action") ∧
    (∀ rs req, (rsAdd rs req (some (str "action"))).intention = str "action") ∧
    (∀ rs req, (rsAdd rs req (some (str "query"))).intention = rs.intention) ∧
    (∀ rs ops, rs.intention = str "action" →
      (runOps rs ops).intention = str "action" ∧
      (structureRS (runOps rs ops)).2.intention = str "action") := by
  refine ⟨fun tok mid => rfl,
    fun rs req => by rw [rsAdd_no_hint],
    fun rs req => by rw [rsAdd_action],
    fun rs req => by rw [rsAdd_query],
    fun rs ops h => ?_⟩
  have h2 := runOps_action rs ops h
  exact ⟨h2, h2⟩

theorem spec_c2_witness :
    (runOps (rsAdd (mkRequestSet none none)
        (mkRequest (str "meta") (str "get") (str "u")) none)
      [.getMeta (str "u2"),
       .add (mkRequest (str "meta") (str "get") (str "u3")) (some (str "query"))]).intention
      = str "action" :=
  ((spec_c2.2.2.2.2 (rsAdd (mkRequestSet none none)
      (mkRequest (str "meta") (str "get") (str "u")) none)
      [.getMeta (str "u2"),
       .add (mkRequest (str "meta") (str "get") (str "u3")) (some (str "query"))]
      (by rw [rsAdd_no_hint]))).1

/-!
## C8 machinery: percent-encoding round trip
-/

theorem fromHex_upper_fin : ∀ k : Fin 16, fromHexDigit (hexDigitUpper k.val) = some k.val := by
  decide

theorem fromHex_upper (k : Nat) (h : k < 16) : fromHexDigit (hexDigitUpper k) = some k :=
  fromHex_upper_fin ⟨k, h⟩

theorem fromHex_lower_fin : ∀ k : Fin 16, fromHexDigit (hexDigitLower k.val) = some k.val := by
  decide

theorem fromHex_lower (k : Nat) (h : k < 16) : fromHexDigit (hexDigitLower k) = some k :=
  fromHex_lower_fin ⟨k, h⟩

theorem hexPair_toHex (b : Nat) (h : b < 256) :
    hexPair (hexDigitUpper (b / 16)) (hexDigitUpper (b % 16)) = some b := by
  rw [hexPair, fromHex_upper (b / 16) (by omega), fromHex_upper (b % 16) (by omega)]
  simp only [Option.some.injEq]
  omega

theorem validChar_toNat (c : Char) : Nat.isValidChar c.toNat := by
  have h := c.valid
  unfold UInt32.isValidChar at h
  exact h

theorem validCP_of_valid (n : Nat) (h : Nat.isValidChar n) : validCP n = true := by
  unfold Nat.isValidChar at h
  unfold validCP
  rcases h with h | h
  · simp
    omega
  · simp
    omega

theorem toNat_ofNat_37 : (Char.ofNat 37).toNat = 37 := rfl

theorem readCont_pct (b2 : Nat) (h : b2 < 64) (rest : List Char) :
    readCont (pctByte (128 + b2) ++ rest) = some (b2, rest) := by
  have h1 : 128 ≤ 128 + b2 := by omega
  have h2 : 128 + b2 < 192 := by omega
  have h3 : 128 + b2 - 128 = b2 := by omega
  simp only [pctByte, List.cons_append, List.nil_append]
  simp [readCont, toNat_ofNat_37, hexPair_toHex (128 + b2) (by omega), h1, h2, h3]

/-- A literal (non-`%`) character decodes to itself. -/
theorem decodeStep_lit (c : Char) (rest : List Char) (h : ¬ c.toNat = 37) :
    decodeStep (c :: rest) = some (c, rest) := by
  simp [decodeStep, h]

/-- The percent-escaped UTF-8 bytes of a scalar value decode back to the
scalar. -/
theorem decodeStep_utf8 (n : Nat) (hv : Nat.isValidChar n) (rest : List Char) :
    decodeStep ((utf8Bytes n).flatMap pctByte ++ rest) = some (Char.ofNat n, rest) := by
  have hvcp : validCP n = true := validCP_of_valid n hv
  have hn : n < 1114112 := by
    unfold Nat.isValidChar at hv
    rcases hv with h | h <;> omega
  by_cases h1 : n < 128
  · rw [utf8Bytes, if_pos h1]
    simp only [List.flatMap_cons, List.flatMap_nil, List.append_nil, pctByte,
      List.cons_append, List.nil_append]
    simp [decodeStep, toNat_ofNat_37, hexPair_toHex n (by omega), h1]
  · by_cases h2 : n < 2048
    · rw [utf8Bytes, if_neg h1, if_pos h2]
      have hb1 : ¬ (192 + n / 64 < 128) := by omega
      have hb2 : ¬ (192 + n / 64 < 192) := by omega
      have hb3 : 192 + n / 64 < 224 := by omega
      have hre : (192 + n / 64 - 192) * 64 + n % 64 = n := by omega
      have hge : 128 ≤ n := by omega
      simp only [List.flatMap_cons, List.flatMap_nil, List.append_nil, pctByte,
        List.cons_append, List.nil_append]
      rw [show (Char.ofNat 37 :: hexDigitUpper ((128 + n % 64) / 16)
            :: hexDigitUpper ((128 + n % 64) % 16) :: rest)
          = pctByte (128 + n % 64) ++ rest from rfl]
      simp [decodeStep, toNat_ofNat_37, hexPair_toHex (192 + n / 64) (by omega),
        hb1, hb2, hb3, readCont_pct (n % 64) (by omega) rest, hre, hge, hvcp]
      have hx : n / 64 * 64 + n % 64 = n := by omega
      rw [hx]
      exact ⟨⟨hge, hvcp⟩, rfl⟩
    · by_cases h3 : n < 65536
      · rw [utf8Bytes, if_neg h1, if_neg h2, if_pos h3]
        have hb1 : ¬ (224 + n / 4096 < 128) := by omega
        have hb2 : ¬ (224 + n / 4096 < 192) := by omega
        have hb3 : ¬ (224 + n / 4096 < 224) := by omega
        have hb4 : 224 + n / 4096 < 240 := by omega
        have hre : (224 + n / 4096 - 224) * 4096 + n / 64 % 64 * 64 + n % 64 = n := by
          omega
        have hge : 2048 ≤ n := by omega
        simp only [List.flatMap_cons, List.flatMap_nil, List.append_nil, pctByte,
          List.cons_append, List.nil_append]
        rw [show (Char.ofNat 37 :: hexDigitUpper ((128 + n / 64 % 64) / 16)
              :: hexDigitUpper ((128 + n / 64 % 64) % 16)
              :: Char.ofNat 37 :: hexDigitUpper ((128 + n % 64) / 16)
              :: hexDigitUpper ((128 + n % 64) % 16) :: rest)
            = pctByte (128 + n / 64 % 64) ++ (pctByte (128 + n % 64) ++ rest) from rfl]
        simp [decodeStep, toNat_ofNat_37, hexPair_toHex (224 + n / 4096) (by omega),
          hb1, hb2, hb3, hb4, readCont_pct (n / 64 % 64) (by omega),
          readCont_pct (n % 64) (by omega) rest, hre, hge, hvcp]
        have hx : n / 4096 * 4096 + n / 64 % 64 * 64 + n % 64 = n := by omega
        rw [hx]
        exact ⟨⟨hge, hvcp⟩, rfl⟩
      · rw [utf8Bytes, if_neg h1, if_neg h2, if_neg h3]
        have hb1 : ¬ (240 + n / 262144 < 128) := by omega
        have hb2 : ¬ (240 + n / 262144 < 192) := by omega
        have hb3 : ¬ (240 + n / 262144 < 224) := by omega
        have hb4 : ¬ (240 + n / 262144 < 240) := by omega
        have hb5 : 240 + n / 262144 < 248 := by omega
        have hre : (240 + n / 262144 - 240) * 262144 + n / 4096 % 64 * 4096
            + n / 64 % 64 * 64 + n % 64 = n := by omega
        have hge : 65536 ≤ n := by omega
        simp only [List.flatMap_cons, List.flatMap_nil, List.append_nil, pctByte,
          List.cons_append, List.nil_append]
        rw [show (Char.ofNat 37 :: hexDigitUpper ((128 + n / 4096 % 64) / 16)
              :: hexDigitUpper ((128 + n / 4096 % 64) % 16)
              :: Char.ofNat 37 :: hexDigitUpper ((128 + n / 64 % 64) / 16)
              :: hexDigitUpper ((128 + n / 64 % 64) % 16)
              :: Char.ofNat 37 :: hexDigitUpper ((128 + n % 64) / 16)
              :: hexDigitUpper ((128 + n % 64) % 16) :: rest)
            = pctByte (128 + n / 4096 % 64)
              ++ (pctByte (128 + n / 64 % 64) ++ (pctByte (128 + n % 64) ++ rest))
            from rfl]
        simp [decodeStep, toNat_ofNat_37, hexPair_toHex (240 + n / 262144) (by omega),
          hb1, hb2, hb3, hb4, hb5, readCont_pct (n / 4096 % 64) (by omega),
          readCont_pct (n / 64 % 64) (by omega), readCont_pct (n % 64) (by omega) rest,
          hre, hge, hvcp]
        have hx : n / 262144 * 262144 + n / 4096 % 64 * 4096 + n / 64 % 64 * 64
            + n % 64 = n := by omega
        rw [hx]
        exact ⟨⟨hge, hvcp⟩, rfl⟩

theorem pdecodeF_step (fuel : Nat) (c : Char) (cs : List Char) (p : Char × List Char)
    (h : decodeStep (c :: cs) = some p) :
    pdecodeF (fuel + 1) (c :: cs) = (pdecodeF fuel p.2).map (fun r => p.1 :: r) := by
  rw [pdecodeF, h]

theorem pdecodeF_nil (fuel : Nat) : pdecodeF fuel [] = some [] := by
  cases fuel <;> rfl

theorem pencode_cons (c : Char) (cs : Str) :
    pencode (c :: cs)
      = (if uriUnreserved c.toNat then [c] else (utf8Bytes c.toNat).flatMap pctByte)
        ++ pencode cs := by
  simp [pencode]

theorem pdecodeF_pencode (s : Str) : ∀ fuel, s.length < fuel →
    pdecodeF fuel (pencode s) = some s := by
  induction s with
  | nil => intro fuel _; exact pdecodeF_nil fuel
  | cons c cs ih =>
      intro fuel hf
      obtain ⟨f, rfl⟩ : ∃ f, fuel = f + 1 := ⟨fuel - 1, by omega⟩
      rw [pencode_cons]
      by_cases hu : uriUnreserved c.toNat = true
      · rw [if_pos hu, List.singleton_append]
        have h37 : ¬ (c.toNat = 37) := by
          intro h
          rw [h] at hu
          exact absurd hu (by decide)
        rw [pdecodeF_step f c (pencode cs) (c, pencode cs) (decodeStep_lit c _ h37)]
        rw [ih f (by simpa using Nat.lt_of_succ_lt_succ hf)]
        rfl
      · rw [if_neg hu]
        have hd := decodeStep_utf8 c.toNat (validChar_toNat c) (pencode cs)
        obtain ⟨c2, cs2, hcc⟩ : ∃ c2 cs2,
            (utf8Bytes c.toNat).flatMap pctByte ++ pencode cs = c2 :: cs2 := by
          have hnn : (utf8Bytes c.toNat).flatMap pctByte ++ pencode cs ≠ [] := by
            intro hempty
            rw [hempty] at hd
            simp [decodeStep] at hd
          cases hx : (utf8Bytes c.toNat).flatMap pctByte ++ pencode cs with
          | nil => exact absurd hx hnn
          | cons a b => exact ⟨a, b, rfl⟩
        rw [hcc] at hd ⊢
        rw [pdecodeF_step f c2 cs2 (Char.ofNat c.toNat, pencode cs) hd]
        rw [ih f (by simpa using Nat.lt_of_succ_lt_succ hf)]
        simp [Char.ofNat_toNat]

/-- `decodeURIComponent` inverts `encodeURIComponent`. -/
theorem pdecode_pencode (s : Str) : pdecode (pencode s) = some s := by
  have hlen : s.length ≤ (pencode s).length := by
    induction s with
    | nil => simp [pencode]
    | cons c cs ih =>
        rw [pencode_cons]
        by_cases hu : uriUnreserved c.toNat = true
        · simp only [if_pos hu, List.length_append, List.length_cons,
            List.length_nil]
          omega
        · have : 1 ≤ ((utf8Bytes c.toNat).flatMap pctByte).length := by
            unfold utf8Bytes
            split_ifs <;> simp [pctByte]
          simp only [if_neg hu, List.length_append, List.length_cons]
          omega
  exact pdecodeF_pencode s ((pencode s).length + 1) (by omega)

/-!
## C8 machinery: JSON string round trip
-/

theorem parseStrF_quote_head (f : Nat) (cs : List Char) :
    parseStrF (f + 1) (Char.ofNat 34 :: cs) = some ([], cs) := by
  simp [parseStrF, show (Char.ofNat 34).toNat = 34 from rfl]

theorem parseStrF_bslash (f : Nat) (cs : List Char) (ch : Char) (cs2 : List Char)
    (h : escStep cs = some (ch, cs2)) :
    parseStrF (f + 1) (Char.ofNat 92 :: cs)
      = (parseStrF f cs2).map (fun q => (ch :: q.1, q.2)) := by
  simp [parseStrF, h, show (Char.ofNat 92).toNat = 92 from rfl]

theorem parseStrF_lit (f : Nat) (c : Char) (cs : List Char) (h34 : ¬ c.toNat = 34)
    (h92 : ¬ c.toNat = 92) (h32 : ¬ c.toNat < 32) :
    parseStrF (f + 1) (c :: cs) = (parseStrF f cs).map (fun q => (c :: q.1, q.2)) := by
  simp [parseStrF, h34, h92, h32]

/-- Parsing inverts the stringify escape of a whole string body up to
the closing quote. -/
theorem parseStrF_round (s : Str) : ∀ fuel rest, s.length < fuel →
    parseStrF fuel (escStr s ++ Char.ofNat 34 :: rest) = some (s, rest) := by
  induction s with
  | nil =>
      intro fuel rest hf
      obtain ⟨f, rfl⟩ : ∃ f, fuel = f + 1 := ⟨fuel - 1, by omega⟩
      simpa [escStr] using parseStrF_quote_head f rest
  | cons c cs ih =>
      intro fuel rest hf
      obtain ⟨f, rfl⟩ : ∃ f, fuel = f + 1 := ⟨fuel - 1, by omega⟩
      have hf2 : cs.length < f := by
        simp only [List.length_cons] at hf
        omega
      have hcs : cs.flatMap escChar = escStr cs := rfl
      rw [escStr, List.flatMap_cons, hcs, escChar]
      by_cases h34 : c.toNat = 34
      · rw [if_pos h34]
        simp only [List.cons_append, List.nil_append]
        rw [parseStrF_bslash f (Char.ofNat 34 :: (escStr cs ++ Char.ofNat 34 :: rest))
          (Char.ofNat 34) (escStr cs ++ Char.ofNat 34 :: rest)
          (by simp [escStep, show (Char.ofNat 34).toNat = 34 from rfl]),
          ih f rest hf2]
        rw [show Char.ofNat 34 = c from by rw [← h34, Char.ofNat_toNat]]
        rfl
      · rw [if_neg h34]
        by_cases h92 : c.toNat = 92
        · rw [if_pos h92]
          simp only [List.cons_append, List.nil_append]
          rw [parseStrF_bslash f (Char.ofNat 92 :: (escStr cs ++ Char.ofNat 34 :: rest))
            (Char.ofNat 92) (escStr cs ++ Char.ofNat 34 :: rest)
            (by simp [escStep, show (Char.ofNat 92).toNat = 92 from rfl]),
            ih f rest hf2]
          rw [show Char.ofNat 92 = c from by rw [← h92, Char.ofNat_toNat]]
          rfl
        · rw [if_neg h92]
          by_cases h8 : c.toNat = 8
          · rw [if_pos h8]
            simp only [List.cons_append, List.nil_append]
            rw [parseStrF_bslash f (Char.ofNat 98 :: (escStr cs ++ Char.ofNat 34 :: rest))
              (Char.ofNat 8) (escStr cs ++ Char.ofNat 34 :: rest)
              (by simp [escStep, show (Char.ofNat 98).toNat = 98 from rfl]),
              ih f rest hf2]
            rw [show Char.ofNat 8 = c from by rw [← h8, Char.ofNat_toNat]]
            rfl
          · rw [if_neg h8]
            by_cases h9 : c.toNat = 9
            · rw [if_pos h9]
              simp only [List.cons_append, List.nil_append]
              rw [parseStrF_bslash f (Char.ofNat 116 :: (escStr cs ++ Char.ofNat 34 :: rest))
                (Char.ofNat 9) (escStr cs ++ Char.ofNat 34 :: rest)
                (by simp [escStep, show (Char.ofNat 116).toNat = 116 from rfl]),
                ih f rest hf2]
              rw [show Char.ofNat 9 = c from by rw [← h9, Char.ofNat_toNat]]
              rfl
            · rw [if_neg h9]
              by_cases h10 : c.toNat = 10
              · rw [if_pos h10]
                simp only [List.cons_append, List.nil_append]
                rw [parseStrF_bslash f (Char.ofNat 110 :: (escStr cs ++ Char.ofNat 34 :: rest))
                  (Char.ofNat 10) (escStr cs ++ Char.ofNat 34 :: rest)
                  (by simp [escStep, show (Char.ofNat 110).toNat = 110 from rfl]),
                  ih f rest hf2]
                rw [show Char.ofNat 10 = c from by rw [← h10, Char.ofNat_toNat]]
                rfl
              · rw [if_neg h10]
                by_cases h12 : c.toNat = 12
                · rw [if_pos h12]
                  simp only [List.cons_append, List.nil_append]
                  rw [parseStrF_bslash f (Char.ofNat 102 :: (escStr cs ++ Char.ofNat 34 :: rest))
                    (Char.ofNat 12) (escStr cs ++ Char.ofNat 34 :: rest)
                    (by simp [escStep, show (Char.ofNat 102).toNat = 102 from rfl]),
                    ih f rest hf2]
                  rw [show Char.ofNat 12 = c from by rw [← h12, Char.ofNat_toNat]]
                  rfl
                · rw [if_neg h12]
                  by_cases h13 : c.toNat = 13
                  · rw [if_pos h13]
                    simp only [List.cons_append, List.nil_append]
                    rw [parseStrF_bslash f (Char.ofNat 114 :: (escStr cs ++ Char.ofNat 34 :: rest))
                      (Char.ofNat 13) (escStr cs ++ Char.ofNat 34 :: rest)
                      (by simp [escStep, show (Char.ofNat 114).toNat = 114 from rfl]),
                      ih f rest hf2]
                    rw [show Char.ofNat 13 = c from by rw [← h13, Char.ofNat_toNat]]
                    rfl
                  · rw [if_neg h13]
                    by_cases h32 : c.toNat < 32
                    · rw [if_pos h32]
                      simp only [List.cons_append, List.nil_append]
                      have hesc : escStep (Char.ofNat 117 :: Char.ofNat 48
                          :: Char.ofNat 48 :: hexDigitLower (c.toNat / 16)
                          :: hexDigitLower (c.toNat % 16)
                          :: (escStr cs ++ Char.ofNat 34 :: rest))
                          = some (c, escStr cs ++ Char.ofNat 34 :: rest) := by
                        have hz : fromHexDigit (Char.ofNat 48) = some 0 := by decide
                        have hvc : validCP c.toNat = validCP c.toNat := rfl
                        simp [escStep, show (Char.ofNat 117).toNat = 117 from rfl,
                          hz, fromHex_lower (c.toNat / 16) (by omega),
                          fromHex_lower (c.toNat % 16) (by omega)]
                        have hcode : c.toNat / 16 * 16 + c.toNat % 16 = c.toNat := by
                          omega
                        rw [hcode, validCP_of_valid c.toNat (validChar_toNat c)]
                        simp [Char.ofNat_toNat]
                      rw [parseStrF_bslash f _ c _ hesc, ih f rest hf2]
                      rfl
                    · rw [if_neg h32]
                      simp only [List.cons_append, List.nil_append]
                      rw [parseStrF_lit f c _ h34 h92 h32, ih f rest hf2]
                      rfl

theorem escChar_length (c : Char) : 1 ≤ (escChar c).length := by
  unfold escChar
  dsimp only
  split_ifs <;> simp

theorem escStr_length (s : Str) : s.length ≤ (escStr s).length := by
  induction s with
  | nil => simp [escStr]
  | cons c cs ih =>
      have h1 := escChar_length c
      have hcs : cs.flatMap escChar = escStr cs := rfl
      rw [escStr, List.flatMap_cons, hcs]
      simp only [List.length_append, List.length_cons]
      omega

/-- The `parseStr` wrapper round trip: the fuel computed from the input
length is always sufficient. -/
theorem parseStr_round (s : Str) (rest : List Char) :
    parseStr (escStr s ++ Char.ofNat 34 :: rest) = some (s, rest) := by
  unfold parseStr
  apply parseStrF_round
  have h := escStr_length s
  simp only [List.length_append, List.length_cons]
  omega

/-!
## C8 machinery: value-grammar round trip
-/

mutual
/-- Constructor count of a value: fuel exceeding it suffices for the
value parsers. -/
def sizeV : Val → Nat
  | .vstr _ => 1
  | .varr l => 1 + sizeL l
  | .vobj l => 1 + sizeO l

def sizeL : ValList → Nat
  | .nil => 0
  | .cons v t => 1 + sizeV v + sizeL t

def sizeO : ObjList → Nat
  | .nil => 0
  | .cons _ v t => 1 + sizeV v + sizeO t
end

theorem sizeV_pos (v : Val) : 1 ≤ sizeV v := by
  cases v <;> simp [sizeV]

/-- Whether the input does not continue with a comma (the stop condition
of the element/field tail parsers). -/
def headNotComma : List Char → Prop
  | [] => True
  | c :: _ => ¬ c.toNat = 44

theorem strVal_head (v : Val) :
    ∃ c0 tl, strVal v = c0 :: tl ∧
      (c0.toNat = 34 ∨ c0.toNat = 91 ∨ c0.toNat = 123) := by
  cases v with
  | vstr s => exact ⟨_, _, rfl, Or.inl rfl⟩
  | varr l => exact ⟨_, _, rfl, Or.inr (Or.inl rfl)⟩
  | vobj l => exact ⟨_, _, rfl, Or.inr (Or.inr rfl)⟩

theorem parseVal_quote (f : Nat) (cs : List Char) :
    parseVal (f + 1) (Char.ofNat 34 :: cs)
      = (parseStr cs).map (fun p => (Val.vstr p.1, p.2)) := by
  simp [parseVal, show (Char.ofNat 34).toNat = 34 from rfl]

theorem parseVal_arr_empty (f : Nat) (cs : List Char) :
    parseVal (f + 1) (Char.ofNat 91 :: Char.ofNat 93 :: cs)
      = some (.varr .nil, cs) := by
  simp [parseVal, show (Char.ofNat 91).toNat = 91 from rfl,
    show (Char.ofNat 93).toNat = 93 from rfl]

theorem parseVal_arr (f : Nat) (d : Char) (cs3 : List Char) (hd : ¬ d.toNat = 93) :
    parseVal (f + 1) (Char.ofNat 91 :: d :: cs3)
      = (match parseItems f (d :: cs3) with
        | none => none
        | some p =>
            match p.2 with
            | e :: cs4 => if e.toNat = 93 then some (.varr p.1, cs4) else none
            | [] => none) := by
  simp [parseVal, show (Char.ofNat 91).toNat = 91 from rfl, hd]

theorem parseVal_obj_empty (f : Nat) (cs : List Char) :
    parseVal (f + 1) (Char.ofNat 123 :: Char.ofNat 125 :: cs)
      = some (.vobj .nil, cs) := by
  simp [parseVal, show (Char.ofNat 123).toNat = 123 from rfl,
    show (Char.ofNat 125).toNat = 125 from rfl]

theorem parseVal_obj (f : Nat) (d : Char) (cs3 : List Char) (hd : ¬ d.toNat = 125) :
    parseVal (f + 1) (Char.ofNat 123 :: d :: cs3)
      = (match parseFields f (d :: cs3) with
        | none => none
        | some p =>
            match p.2 with
            | e :: cs4 => if e.toNat = 125 then some (.vobj p.1, cs4) else none
            | [] => none) := by
  simp [parseVal, show (Char.ofNat 123).toNat = 123 from rfl, hd]

/-- The value parsers invert the stringifiers, given fuel above the
constructor count; the tail parsers stop exactly when the continuation
is not a comma. -/
theorem parse_round (fuel : Nat) :
    (∀ v rest, sizeV v < fuel → parseVal fuel (strVal v ++ rest) = some (v, rest)) ∧
    (∀ v t rest, sizeL (.cons v t) < fuel → headNotComma rest →
      parseItems fuel (strItems (.cons v t) ++ rest) = some (.cons v t, rest)) ∧
    (∀ t rest, sizeL t < fuel → headNotComma rest →
      parseItemsTail fuel (strItemsTail t ++ rest) = some (t, rest)) ∧
    (∀ k v t rest, sizeO (.cons k v t) < fuel → headNotComma rest →
      parseFields fuel (strFields (.cons k v t) ++ rest) = some (.cons k v t, rest)) ∧
    (∀ t rest, sizeO t < fuel → headNotComma rest →
      parseFieldsTail fuel (strFieldsTail t ++ rest) = some (t, rest)) := by
  induction fuel with
  | zero =>
      refine ⟨?_, ?_, ?_, ?_, ?_⟩ <;> intros <;> omega
  | succ f ih =>
      obtain ⟨ihV, ihI, ihIT, ihF, ihFT⟩ := ih
      have hV : ∀ v rest, sizeV v < f + 1 →
          parseVal (f + 1) (strVal v ++ rest) = some (v, rest) := by
        intro v rest h
        cases v with
        | vstr s =>
            have hq : strVal (.vstr s) ++ rest
                = Char.ofNat 34 :: (escStr s ++ (Char.ofNat 34 :: rest)) := by
              simp [strVal, quoteStr]
            rw [hq, parseVal_quote, parseStr_round]
            rfl
        | varr l =>
            cases l with
            | nil =>
                have hq : strVal (.varr .nil) ++ rest
                    = Char.ofNat 91 :: Char.ofNat 93 :: rest := by
                  simp [strVal, strItems]
                rw [hq, parseVal_arr_empty]
            | cons v0 t =>
                obtain ⟨c0, tl, hhead, hcode⟩ := strVal_head v0
                have hne : ¬ c0.toNat = 93 := by rcases hcode with h | h | h <;> omega
                have hq : strVal (.varr (.cons v0 t)) ++ rest
                    = Char.ofNat 91
                      :: (c0 :: (tl ++ (strItemsTail t ++ (Char.ofNat 93 :: rest)))) := by
                  simp [strVal, strItems, hhead]
                rw [hq, parseVal_arr f c0 _ hne]
                have hroll : c0 :: (tl ++ (strItemsTail t ++ (Char.ofNat 93 :: rest)))
                    = strItems (.cons v0 t) ++ (Char.ofNat 93 :: rest) := by
                  simp [strItems, hhead]
                rw [hroll]
                have hsz : sizeL (.cons v0 t) < f := by
                  simp only [sizeV, sizeL] at h ⊢
                  omega
                rw [ihI v0 t (Char.ofNat 93 :: rest) hsz
                  (by simp [headNotComma, show (Char.ofNat 93).toNat = 93 from rfl])]
                simp [show (Char.ofNat 93).toNat = 93 from rfl]
        | vobj l =>
            cases l with
            | nil =>
                have hq : strVal (.vobj .nil) ++ rest
                    = Char.ofNat 123 :: Char.ofNat 125 :: rest := by
                  simp [strVal, strFields]
                rw [hq, parseVal_obj_empty]
            | cons k v0 t =>
                have hq : strVal (.vobj (.cons k v0 t)) ++ rest
                    = Char.ofNat 123
                      :: (Char.ofNat 34
                        :: (escStr k
                          ++ (Char.ofNat 34 :: Char.ofNat 58
                            :: (strVal v0
                              ++ (strFieldsTail t ++ (Char.ofNat 125 :: rest)))))) := by
                  simp [strVal, strFields, quoteStr]
                rw [hq, parseVal_obj f _ _ (by simp [show (Char.ofNat 34).toNat = 34 from rfl])]
                have hroll : Char.ofNat 34
                    :: (escStr k
                      ++ (Char.ofNat 34 :: Char.ofNat 58
                        :: (strVal v0 ++ (strFieldsTail t ++ (Char.ofNat 125 :: rest)))))
                    = strFields (.cons k v0 t) ++ (Char.ofNat 125 :: rest) := by
                  simp [strFields, quoteStr]
                rw [hroll]
                have hsz : sizeO (.cons k v0 t) < f := by
                  simp only [sizeV, sizeO] at h ⊢
                  omega
                rw [ihF k v0 t (Char.ofNat 125 :: rest) hsz
                  (by simp [headNotComma, show (Char.ofNat 125).toNat = 125 from rfl])]
                simp [show (Char.ofNat 125).toNat = 125 from rfl]
      refine ⟨hV, ?_, ?_, ?_, ?_⟩
      · intro v t rest h hnc
        have hszv : sizeV v < f := by
          simp only [sizeL] at h
          omega
        have hszt : sizeL t < f := by
          have := sizeV_pos v
          simp only [sizeL] at h
          omega
        have hsplit : strItems (.cons v t) ++ rest
            = strVal v ++ (strItemsTail t ++ rest) := by
          simp [strItems]
        simp [hsplit, parseItems, ihV v _ hszv, ihIT t rest hszt hnc]
      · intro t rest h hnc
        cases t with
        | nil =>
            cases rest with
            | nil => simp [strItemsTail, parseItemsTail]
            | cons c cs2 =>
                have hc : ¬ c.toNat = 44 := hnc
                simp [strItemsTail, parseItemsTail, hc]
        | cons v t2 =>
            have hszv : sizeV v < f := by
              simp only [sizeL] at h
              omega
            have hszt : sizeL t2 < f := by
              have := sizeV_pos v
              simp only [sizeL] at h
              omega
            have hsplit : strItemsTail (.cons v t2) ++ rest
                = Char.ofNat 44 :: (strVal v ++ (strItemsTail t2 ++ rest)) := by
              simp [strItemsTail]
            simp [hsplit, parseItemsTail, show (Char.ofNat 44).toNat = 44 from rfl,
              ihV v _ hszv, ihIT t2 rest hszt hnc]
      · intro k v t rest h hnc
        have hszv : sizeV v < f := by
          simp only [sizeO] at h
          omega
        have hszt : sizeO t < f := by
          have := sizeV_pos v
          simp only [sizeO] at h
          omega
        have hsplit : strFields (.cons k v t) ++ rest
            = Char.ofNat 34 :: (escStr k ++ (Char.ofNat 34 :: Char.ofNat 58
              :: (strVal v ++ (strFieldsTail t ++ rest)))) := by
          simp [strFields, quoteStr]
        simp [hsplit, parseFields, show (Char.ofNat 34).toNat = 34 from rfl,
          parseStr_round k, show (Char.ofNat 58).toNat = 58 from rfl,
          ihV v _ hszv, ihFT t rest hszt hnc]
      · intro t rest h hnc
        cases t with
        | nil =>
            cases rest with
            | nil => simp [strFieldsTail, parseFieldsTail]
            | cons c cs2 =>
                have hc : ¬ c.toNat = 44 := hnc
                simp [strFieldsTail, parseFieldsTail, hc]
        | cons k v t2 =>
            have hszv : sizeV v < f := by
              simp only [sizeO] at h
              omega
            have hszt : sizeO t2 < f := by
              have := sizeV_pos v
              simp only [sizeO] at h
              omega
            have hsplit : strFieldsTail (.cons k v t2) ++ rest
                = Char.ofNat 44 :: (Char.ofNat 34 :: (escStr k ++ (Char.ofNat 34
                  :: Char.ofNat 58 :: (strVal v ++ (strFieldsTail t2 ++ rest))))) := by
              simp [strFieldsTail, quoteStr]
            simp [hsplit, parseFieldsTail, show (Char.ofNat 44).toNat = 44 from rfl,
              show (Char.ofNat 34).toNat = 34 from rfl, parseStr_round k,
              show (Char.ofNat 58).toNat = 58 from rfl,
              ihV v _ hszv, ihFT t2 rest hszt hnc]

mutual
theorem sizeV_le : ∀ v : Val, sizeV v ≤ (strVal v).length
  | .vstr s => by
      simp only [sizeV, strVal, quoteStr, List.length_cons, List.length_append,
        List.length_nil]
      omega
  | .varr l => by
      cases l with
      | nil => simp [sizeV, sizeL, strVal, strItems]
      | cons v t =>
          have h1 := sizeV_le v
          have h2 := sizeL_le t
          simp only [sizeV, sizeL, strVal, strItems, List.length_cons,
            List.length_append, List.length_nil]
          omega
  | .vobj l => by
      cases l with
      | nil => simp [sizeV, sizeO, strVal, strFields]
      | cons k v t =>
          have h1 := sizeV_le v
          have h2 := sizeO_le t
          simp only [sizeV, sizeO, strVal, strFields, quoteStr, List.length_cons,
            List.length_append, List.length_nil]
          omega

theorem sizeL_le : ∀ t : ValList, sizeL t ≤ (strItemsTail t).length
  | .nil => by simp [sizeL, strItemsTail]
  | .cons v t => by
      have h1 := sizeV_le v
      have h2 := sizeL_le t
      simp only [sizeL, strItemsTail, List.length_cons, List.length_append]
      omega

theorem sizeO_le : ∀ t : ObjList, sizeO t ≤ (strFieldsTail t).length
  | .nil => by simp [sizeO, strFieldsTail]
  | .cons k v t => by
      have h1 := sizeV_le v
      have h2 := sizeO_le t
      simp only [sizeO, strFieldsTail, quoteStr, List.length_cons,
        List.length_append, List.length_nil]
      omega
end

/-- Percent-decoding then JSON-parsing a stringified-and-percent-encoded
requests array recovers the array. -/
theorem decodeRequestsBlob_round (l : ValList) :
    decodeRequestsBlob (pencode (strVal (.varr l))) = some l := by
  have hsz : sizeV (.varr l) < (strVal (.varr l)).length + 1 := by
    have := sizeV_le (.varr l)
    omega
  have h := (parse_round ((strVal (.varr l)).length + 1)).1 (.varr l) [] hsz
  rw [List.append_nil] at h
  simp [decodeRequestsBlob, pdecode_pencode, h]

/-- C8.  `callable()` agrees with `structure()` on the token and
intention fields, and percent-decoding then JSON-parsing its `requests`
text blob yields exactly the `requests` list `structure()` produces for
the same set state. -/
theorem spec_c8 (rs : RequestSet) :
    (callableRS rs).2.token = (structureRS rs).2.token ∧
    (callableRS rs).2.intention = (structureRS rs).2.intention ∧
    decodeRequestsBlob (callableRS rs).2.requests
      = some (structureRS rs).2.requests := by
  refine ⟨rfl, rfl, ?_⟩
  exact decodeRequestsBlob_round (structureRS rs).2.requests

end Minerva
